import Mathlib

/-!
# Verification of the hoice learning-data engine (`src/data/mod.rs`)

A shallow embedding of the learning-data engine of the hoice CHC solver.
The definitions mirror `src/data/mod.rs` (the `Data` structure and its
operations) and `src/term/val.rs` (the `Val` enum).  Components whose source
is not part of the repository snapshot (the `Constraint` type of
`src/data/constraint.rs`, the `CstrInfo` structure of `src/data/info.rs`,
the argument-tuple subsumption operations of `common::var_to::vals`, and the
`SampleGraph` of `unsat_core::sample_graph`) are modelled from the
specification; their doc comments say so explicitly.

Design notes:
* predicate, clause and constraint identifiers are `Nat`;
* hash sets are embedded as duplicate-free `List`s with explicit insert;
* hash maps are embedded as association lists;
* global configuration (`conf.teacher.partial`, `conf.track_samples`) is a
  `Config` value carried by `Data`;
* the global hashcons factory for argument tuples is embedded as the
  `factory` field (a value is "new" iff it is not in the factory);
* fallible operations return `Except Err`, with a dedicated `Err.unsat`
  kind mirroring the `unsat!` macro, and a `Err.fuel` artifact for the
  fuel-bounded propagation loop.
-/

namespace HoiceData

/-- The value type, from `src/term/val.rs` lines 8-16: booleans, integers,
and `N` ("no value", the unknown `⊥`). -/
inductive Val where
  | B (b : Bool)
  | I (i : Int)
  | N
deriving DecidableEq, Repr

/-- An argument tuple: a sequence of values (`RVarVals` / `VarVals`). -/
abbrev Args := List Val

/-- Modelled from the spec: subsumption on tuples, `a ⊑ b` iff the tuples
have the same length and at every position `a[i] = b[i]` or `a[i] = ⊥`;
`subsumes a b` means `a` is at least as general as `b`. -/
def subsumes : Args → Args → Bool
  | [], [] => true
  | x :: xs, y :: ys => (x == y || x == Val.N) && subsumes xs ys
  | _, _ => false

/-- Modelled from the spec: a tuple is partial iff some position is `⊥`. -/
def hasUnknown (a : Args) : Bool := a.any (fun v => v == Val.N)

/-- Modelled from the spec: `compare` on tuples, returning `some ord` when
the tuples are comparable under `⊑` and `none` otherwise, consistent with
`subsumes`. -/
def argsCompare (a b : Args) : Option Ordering :=
  if a = b then some Ordering.eq
  else if subsumes a b then some Ordering.gt
  else if subsumes b a then some Ordering.lt
  else none

theorem subsumes_refl (a : Args) : subsumes a a = true := by
  induction a with
  | nil => rfl
  | cons v t ih => simp [subsumes, ih]

theorem subsumes_antisymm {a b : Args} (hab : subsumes a b = true)
    (hba : subsumes b a = true) : a = b := by
  induction a generalizing b with
  | nil =>
    cases b with
    | nil => rfl
    | cons x t => simp [subsumes] at hab
  | cons x t ih =>
    cases b with
    | nil => simp [subsumes] at hab
    | cons y s =>
      simp only [subsumes, Bool.and_eq_true, Bool.or_eq_true, beq_iff_eq] at hab hba
      obtain ⟨hxy, htl⟩ := hab
      obtain ⟨hyx, htl'⟩ := hba
      have hx : x = y := by
        rcases hxy with h | h
        · exact h
        · rcases hyx with h' | h' <;> simp_all
      rw [hx, ih htl htl']

/-- `some m` in the set subsumes `a` (the "is subsumed by the set" test of
`VarVals::set_subsumed`, modelled from the spec). -/
def setSubsumed (a : Args) (s : List Args) : Prop :=
  ∃ m ∈ s, subsumes m a = true

instance (a : Args) (s : List Args) : Decidable (setSubsumed a s) := by
  unfold setSubsumed; infer_instance

/-- Set insertion for the list embedding of hash sets. -/
def sInsert {α : Type} [DecidableEq α] (a : α) (l : List α) : List α :=
  if a ∈ l then l else a :: l

/-- Association-list lookup (embedding of hash-map `get`). -/
def alookup {α β : Type} [DecidableEq α] (l : List (α × β)) (k : α) : Option β :=
  match l with
  | [] => none
  | (k', v) :: rest => if k' = k then some v else alookup rest k

/-- Association-list update: replace the binding of `k`, or append it. -/
def aupdate {α β : Type} [DecidableEq α] (l : List (α × β)) (k : α) (v : β) :
    List (α × β) :=
  match l with
  | [] => [(k, v)]
  | (k', v') :: rest =>
    if k' = k then (k, v) :: rest else (k', v') :: aupdate rest k v

/-- Association-list removal of the binding of `k`. -/
def aremove {α β : Type} [DecidableEq α] (l : List (α × β)) (k : α) :
    List (α × β) :=
  match l with
  | [] => []
  | (k', v') :: rest => if k' = k then rest else (k', v') :: aremove rest k

/-- A sample: a predicate paired with an argument tuple
(`src/data/sample.rs`, used as `Sample { pred, args }`). -/
structure Sample where
  pred : Nat
  args : Args
deriving DecidableEq, Repr

/-- Modelled from the spec: a constraint `⋀ Pᵢ(aᵢ) ⇒ rhs` of
`src/data/constraint.rs` (not in the snapshot).  `lhs` maps predicates to
sets of argument tuples; `lhs = none` flags the constraint as a tautology
("deleted in place"); `rhs = none` is `⊥` (a negative constraint). -/
structure Constraint where
  lhs : Option (List (Nat × List Args))
  rhs : Option Sample
deriving DecidableEq, Repr

namespace Constraint

/-- Modelled from the spec: a "deleted" constraint is flagged tautology in
place; the flag is `lhs = none`. -/
def is_tautology (c : Constraint) : Bool := c.lhs.isNone

/-- All `(pred, args)` samples of an lhs map. -/
def lhsSamples (l : List (Nat × List Args)) : List (Nat × Args) :=
  l.flatMap (fun e => e.2.map (fun a => (e.1, a)))

/-- `lhsLeq l1 l2`: every sample of `l1` appears in `l2` (pointwise set
inclusion per predicate). -/
def lhsLeq (l1 l2 : List (Nat × List Args)) : Bool :=
  l1.all (fun e => e.2.all (fun a => a ∈ (alookup l2 e.1).getD []))

/-- Modelled from the spec (§4.3): `a` implies `b` — so `b` is redundant —
iff `Lhs b ⊇ Lhs a` pointwise and the rhs of `a` matches the rhs of `b`
(equal rhs, or `a` is a negative constraint absorbing any rhs). -/
def implies_c (a b : Constraint) : Bool :=
  match a.lhs, b.lhs with
  | some la, some lb =>
    lhsLeq la lb && (decide (a.rhs = b.rhs) || decide (a.rhs = none))
  | _, _ => false

/-- Modelled from the spec (§4.3): the constraint order.  `compare a b` is
`gt` when `a` implies `b` (so `b` may be dropped), `lt` in the opposite
direction, `eq` when both hold, `none` when incomparable. -/
def compare (a b : Constraint) : Option Ordering :=
  if implies_c a b then (if implies_c b a then some Ordering.eq else some Ordering.gt)
  else if implies_c b a then some Ordering.lt
  else none

/-- Modelled from the spec (§4.4, §4.5): triviality inspection.  Returns
`inl (sample, polarity)` when the constraint degenerates to a single
conclusion (marking the constraint tautology in place), `inr true` for
`true ⇒ ⊥`, `inr false` otherwise. -/
def is_trivial (c : Constraint) : ((Sample × Bool) ⊕ Bool) × Constraint :=
  match c.lhs with
  | none => (Sum.inr false, c)
  | some l =>
    if l.all (fun e => e.2.isEmpty) then
      match c.rhs with
      | some s => (Sum.inl (s, true), ⟨none, none⟩)
      | none => (Sum.inr true, c)
    else if c.rhs = none then
      match lhsSamples l with
      | [(p, a)] => (Sum.inl (⟨p, a⟩, false), ⟨none, none⟩)
      | _ => (Sum.inr false, c)
    else (Sum.inr false, c)

end Constraint

/-- The error kinds of the engine (§7): the dedicated `unsat` kind of the
`unsat!` macro, the `merge_samples` dependency-tracking mismatch, the fatal
internal-inconsistency kinds, and a fuel artifact for the embedded
propagation loop. -/
inductive Err where
  | unsat
  | inconsistentDepTracking
  | inconsistentMap
  | trueFalseRequest
  | fuel
deriving DecidableEq, Repr

/-- Result type mirroring `Res<T>`. -/
abbrev Res (α : Type) := Except Err α

instance {ε α : Type} [DecidableEq ε] [DecidableEq α] :
    DecidableEq (Except ε α) := fun x y =>
  match x, y with
  | .ok a, .ok b =>
    if h : a = b then isTrue (by rw [h]) else isFalse (by simp [h])
  | .error e, .error f =>
    if h : e = f then isTrue (by rw [h]) else isFalse (by simp [h])
  | .ok _, .error _ => isFalse (by simp)
  | .error _, .ok _ => isFalse (by simp)

/-- Modelled from the spec: the constraint bookkeeping of
`src/data/info.rs` (not in the snapshot): the modified-since-last-clone set
and the set of negative (rhs-less) live constraints. -/
structure CstrInfo where
  modded : List Nat
  negs : List Nat
deriving DecidableEq, Repr

namespace CstrInfo

def new : CstrInfo := ⟨[], []⟩

/-- Register a constraint as modified; a negative constraint is also
recorded in the negative-constraint set. -/
def register_modded (ci : CstrInfo) (idx : Nat) (c : Constraint) : CstrInfo :=
  { modded := sInsert idx ci.modded,
    negs := if c.rhs = none then sInsert idx ci.negs else ci.negs }

/-- Forget a constraint (it became a tautology). -/
def forget (ci : CstrInfo) (idx : Nat) : CstrInfo :=
  ⟨ci.modded.filter (fun j => j ≠ idx), ci.negs.filter (fun j => j ≠ idx)⟩

def clear_modded (ci : CstrInfo) : CstrInfo := { ci with modded := [] }

end CstrInfo

/-- The staging queue (`struct Staged`, `src/data/mod.rs` lines 1332-1425):
per-predicate sets of positive and negative samples awaiting propagation. -/
structure Staged where
  pos : List (Nat × List Args)
  neg : List (Nat × List Args)
deriving DecidableEq, Repr

namespace Staged

def with_capacity : Staged := ⟨[], []⟩

/-- `Staged::is_empty` (lines 1349-1351). -/
def is_empty (s : Staged) : Bool := s.pos.isEmpty && s.neg.isEmpty

/-- `Staged::add` (lines 1393-1412): fetch the set for `pred`, drop the
sample if it is subsumed by a staged one, otherwise evict the staged
samples it subsumes and insert it.  Returns whether the sample was new. -/
def add (s : Staged) (pred : Nat) (args : Args) (pol : Bool) : Bool × Staged :=
  let m := if pol then s.pos else s.neg
  let set := (alookup m pred).getD []
  if setSubsumed args set then (false, s)
  else
    let set' := sInsert args (set.filter (fun x => ¬ subsumes args x))
    let m' := aupdate m pred set'
    (true, if pol then { s with pos := m' } else { s with neg := m' })

/-- `Staged::pop` (lines 1372-1390), `get_pred` picking the first key of
`pos`, then of `neg`. -/
def pop (s : Staged) : Option (Nat × List Args × Bool × Staged) :=
  match s.pos with
  | (p, argss) :: rest => some (p, argss, true, ⟨rest, s.neg⟩)
  | [] =>
    match s.neg with
    | (p, argss) :: rest => some (p, argss, false, ⟨s.pos, rest⟩)
    | [] => none

end Staged

/-- The global configuration flags the engine reads (§6):
`conf.teacher.partial` and `conf.track_samples`. -/
structure Config where
  partialSamples : Bool
  trackSamples : Bool
deriving DecidableEq, Repr

/-- Modelled from the spec: a hyperedge of the sample dependency graph
(`unsat_core::sample_graph`, not in the snapshot), reduced to the data the
engine records: a positive edge justifying a sample by a clause, or a
negative proof edge for a clause. -/
inductive SampleEdge where
  | pos (pred : Nat) (args : Args) (clause : Nat)
  | neg (clause : Nat)
deriving DecidableEq, Repr

/-- Modelled from the spec: the dependency graph as its list of
hyperedges. -/
abbrev SampleGraph := List SampleEdge

/-- The learning-data store (`pub struct Data`, lines 25-49). -/
structure Data where
  cfg : Config
  predCount : Nat
  pos : List (List Args)
  neg : List (List Args)
  constraints : List Constraint
  map : List (List (Args × List Nat))
  staged : Staged
  cstr_info : CstrInfo
  graph : Option SampleGraph
  factory : List Args
deriving DecidableEq, Repr

namespace Data

/-- `Data::new` (lines 85-113): empty per-predicate stores, a dependency
graph iff sample tracking is configured. -/
def new (cfg : Config) (predCount : Nat) : Data :=
  { cfg := cfg
    predCount := predCount
    pos := List.replicate predCount []
    neg := List.replicate predCount []
    constraints := []
    map := List.replicate predCount []
    staged := Staged.with_capacity
    cstr_info := CstrInfo.new
    graph := if cfg.trackSamples then some [] else none
    factory := [] }

end Data

/-- The default (out-of-bounds) constraint slot: a tautology. -/
def cdefault : Constraint := ⟨none, none⟩

/-- First result of an option-valued function over a list (the shape of the
`for … { if … return }` searches of the source). -/
def firstSome {α β : Type} (f : α → Option β) : List α → Option β
  | [] => none
  | a :: l =>
    match f a with
    | some b => some b
    | none => firstSome f l

/-- The inverse-index entry for predicate `p`. -/
def mget (map : List (List (Args × List Nat))) (p : Nat) : List (Args × List Nat) :=
  map.getD p []

/-- `Data::tauto_fun` (lines 404-425): remove the `(pred, args) → cstr`
link from the inverse map, dropping the key when its set empties; fails on
a missing link. -/
def tauto_fun (map : List (List (Args × List Nat))) (cstr : Nat) (pred : Nat)
    (args : Args) : Res (List (List (Args × List Nat))) :=
  match alookup (mget map pred) args with
  | none => .error .inconsistentMap
  | some set =>
    if cstr ∈ set then
      let set' := set.filter (fun j => j ≠ cstr)
      if set'.isEmpty then .ok (map.set pred (aremove (mget map pred) args))
      else .ok (map.set pred (aupdate (mget map pred) args set'))
    else .error .inconsistentMap

/-- Unlink every sample of an lhs map from the inverse index. -/
def tautoAll (map : List (List (Args × List Nat))) (cstr : Nat)
    (l : List (Nat × List Args)) : Res (List (List (Args × List Nat))) :=
  l.foldlM (fun m e => e.2.foldlM (fun m a => tauto_fun m cstr e.1 a) m) map

namespace Constraint

/-- Modelled from the spec (§4.4 step 3b): `Constraint::force_sample`.
Forcing sample `(pred, args)` with polarity `pol` on a constraint removes
the matching side: a positive sample removes the subsumed lhs tuples of
`pred` (tautology when it matches the rhs), a negative sample clears a
matching rhs and tautologizes the constraint when it matches an lhs tuple.
On tautology the remaining samples are unlinked through `tauto_fun`.
Returns the mutated constraint, the updated inverse map and the tautology
flag. -/
def force_sample (c : Constraint) (idx : Nat) (pred : Nat) (args : Args)
    (pol : Bool) (map : List (List (Args × List Nat))) :
    Res (Constraint × List (List (Args × List Nat)) × Bool) :=
  match c.lhs with
  | none => .ok (c, map, true)
  | some l =>
    let cur := (alookup l pred).getD []
    let matched := cur.filter (fun s => subsumes args s)
    let rest := cur.filter (fun s => ¬ subsumes args s)
    let l' := if rest.isEmpty then aremove l pred else aupdate l pred rest
    let rhsMatched : Bool :=
      match c.rhs with
      | some s => decide (s.pred = pred) && subsumes args s.args
      | none => false
    if pol then
      if rhsMatched then do
        let map ← tautoAll map idx l'
        .ok (⟨none, none⟩, map, true)
      else .ok (⟨some l', c.rhs⟩, map, false)
    else
      let rhs' := if rhsMatched then none else c.rhs
      if ¬ matched.isEmpty then do
        let map ← tautoAll map idx l'
        let map ← match rhs' with
          | some s => tauto_fun map idx s.pred s.args
          | none => .ok map
        .ok (⟨none, none⟩, map, true)
      else .ok (⟨some l', rhs'⟩, map, false)

/-- Modelled from the spec (§4.6): `Constraint::force`, the structural
variant of `force_sample` removing every atom of `pred` at once. -/
def force (c : Constraint) (idx : Nat) (pred : Nat) (pol : Bool)
    (map : List (List (Args × List Nat))) :
    Res (Constraint × List (List (Args × List Nat)) × Bool) :=
  match c.lhs with
  | none => .ok (c, map, true)
  | some l =>
    let hasP : Bool := (alookup l pred).isSome
    let l' := aremove l pred
    let rhsP : Bool :=
      match c.rhs with
      | some s => decide (s.pred = pred)
      | none => false
    if pol then
      if rhsP then do
        let map ← tautoAll map idx l'
        .ok (⟨none, none⟩, map, true)
      else .ok (⟨some l', c.rhs⟩, map, false)
    else
      let rhs' := if rhsP then none else c.rhs
      if hasP then do
        let map ← tautoAll map idx l'
        let map ← match rhs' with
          | some s => tauto_fun map idx s.pred s.args
          | none => .ok map
        .ok (⟨none, none⟩, map, true)
      else .ok (⟨some l', rhs'⟩, map, false)

end Constraint

namespace Data

/-- `Data::tautologize` (lines 427-440): unlink every sample of the
constraint from the inverse map, clear the constraint in place, forget it
in the constraint info. -/
def tautologize (d : Data) (idx : Nat) : Res Data :=
  match (d.constraints.getD idx cdefault).lhs,
      (d.constraints.getD idx cdefault).rhs with
  | none, _ => .ok { d with cstr_info := d.cstr_info.forget idx }
  | some l, none => do
    let map ← tautoAll d.map idx l
    .ok { d with
      map := map
      constraints := d.constraints.set idx cdefault
      cstr_info := d.cstr_info.forget idx }
  | some l, some s => do
    let map ← tautoAll d.map idx l
    let map ← tauto_fun map idx s.pred s.args
    .ok { d with
      map := map
      constraints := d.constraints.set idx cdefault
      cstr_info := d.cstr_info.forget idx }

/-- The set of constraints similar to constraint `idx` that `cstr_useful`
examines (lines 205-224): the inverse-map entry of the rhs sample, or all
negative constraints for an rhs-less constraint. -/
def similarIds (d : Data) (idx : Nat) : Option (List Nat) :=
  match (d.constraints.getD idx cdefault).rhs with
  | some s => alookup (mget d.map s.pred) s.args
  | none => some d.cstr_info.negs

/-- The inner loop of `cstr_useful` (lines 228-248): compare the candidate
with each similar constraint; tautologize similar constraints it implies,
flag the candidate useless when a similar constraint implies it. -/
def usefulLoop (idx : Nat) : List Nat → Bool → Data → Res (Bool × Data)
  | [], useful, d => .ok (useful, d)
  | j :: rest, useful, d =>
    match Constraint.compare (d.constraints.getD idx cdefault)
        (d.constraints.getD j cdefault) with
    | some Ordering.eq | some Ordering.gt => do
      let d ← d.tautologize j
      usefulLoop idx rest useful d
    | some Ordering.lt => usefulLoop idx rest false d
    | none => usefulLoop idx rest useful d

/-- `Data::cstr_useful` (lines 202-252). -/
def cstr_useful (d : Data) (idx : Nat) : Res (Bool × Data) := do
  let similar ← match d.similarIds idx with
    | some s => Except.ok s
    | none => Except.error Err.inconsistentMap
  let toCheck := (similar.filter (fun j => j ≠ idx)).dedup
  usefulLoop idx toCheck true d

/-- Drop the trailing tautology constraints (the `loop` of
`shrink_constraints`, lines 387-401). -/
def dropTrailingTautos : List Constraint → List Constraint
  | [] => []
  | c :: rest =>
    match dropTrailingTautos rest with
    | [] => if c.is_tautology then [] else [c]
    | r => c :: r

/-- `Data::shrink_constraints` (lines 381-402): drop the empty entries of
every inverse-map slot, then pop the trailing tautology constraints. -/
def shrink_constraints (d : Data) : Data :=
  { d with
    map := d.map.map (fun pm => pm.filter (fun e => ¬ e.2.isEmpty))
    constraints := dropTrailingTautos d.constraints }

/-- `Data::remove_subs` (lines 445-466): without partial samples a single
key removal; with them, drain every key subsumed by `args` and return the
union of their constraint sets. -/
def remove_subs (d : Data) (pred : Nat) (args : Args) :
    Option (List Nat) × Data :=
  if ¬ d.cfg.partialSamples || ¬ hasUnknown args then
    match alookup (mget d.map pred) args with
    | none => (none, d)
    | some set =>
      (some set, { d with map := d.map.set pred (aremove (mget d.map pred) args) })
  else
    let pm := mget d.map pred
    let hit := pm.filter (fun e => subsumes args e.1)
    let rest := pm.filter (fun e => ¬ subsumes args e.1)
    let res := if hit.isEmpty then none else some (hit.flatMap (fun e => e.2)).dedup
    (res, { d with map := d.map.set pred rest })

/-- `Data::is_unsat` (lines 471-486): scan every predicate for a positive
and a negative sample comparable under subsumption; return the witness
pair. -/
def is_unsat (d : Data) : Option (List (Nat × Args)) :=
  firstSome (fun p =>
      firstSome (fun s =>
          firstSome (fun n =>
              if (argsCompare s n).isSome then some [(p, s), (p, n)] else none)
            (d.neg.getD p []))
        (d.pos.getD p []))
    (List.range d.pos.length)

/-- The target set of the propagation filter: `pos[pred]` or `neg[pred]`. -/
def target (d : Data) (pred : Nat) (pol : Bool) : List Args :=
  if pol then d.pos.getD pred [] else d.neg.getD pred []

/-- Write back the target set. -/
def setTarget (d : Data) (pred : Nat) (pol : Bool) (s : List Args) : Data :=
  if pol then { d with pos := d.pos.set pred s }
  else { d with neg := d.neg.set pred s }

/-- The `argss.retain` filtering step of `propagate` (lines 520-539): keep
the samples not subsumed by a current witness, inserting each kept sample
and evicting the current witnesses it subsumes. -/
def filterStep (argss : List Args) (tgt : List Args) : List Args × List Args :=
  argss.foldl
    (fun acc a =>
      if setSubsumed a acc.2 then acc
      else (acc.1 ++ [a], sInsert a (acc.2.filter (fun m => ¬ subsumes a m))))
    ([], tgt)

/-- The trivial-constraint branch shared by `propagate` (lines 576-586) and
`force_pred` (lines 933-943): unlink the surviving sample's link, forget
the constraint, store it cleared, and stage the derived sample. -/
def stageTrivial (d : Data) (cidx : Nat) (s : Sample) (pol' : Bool)
    (c' : Constraint) : Data :=
  let pm := mget d.map s.pred
  let pm' :=
    match alookup pm s.args with
    | some set => aupdate pm s.args (set.filter (fun j => j ≠ cidx))
    | none => pm
  let d := { d with
    constraints := d.constraints.set cidx c'
    map := d.map.set s.pred pm'
    cstr_info := d.cstr_info.forget cidx }
  { d with staged := (d.staged.add s.pred s.args pol').2 }

/-- The per-constraint step of the `cstr update` loop of `propagate`
(lines 561-599): force the sample on the constraint, then apply the
tautology / triviality / modification discipline. -/
def forceOne (pred : Nat) (args : Args) (pol : Bool) (acc : Data × List Nat)
    (cidx : Nat) : Res (Data × List Nat) := do
  let r ← (acc.1.constraints.getD cidx cdefault).force_sample
    cidx pred args pol acc.1.map
  let d : Data :=
    { acc.1 with constraints := acc.1.constraints.set cidx r.1, map := r.2.1 }
  if r.2.2 then
    .ok ({ d with cstr_info := d.cstr_info.forget cidx }, acc.2)
  else
    match r.1.is_trivial with
    | (Sum.inl (s, pol'), c') => .ok (d.stageTrivial cidx s pol' c', acc.2)
    | (Sum.inr false, _) =>
      .ok ({ d with cstr_info := d.cstr_info.register_modded cidx r.1 },
        sInsert cidx acc.2)
    | (Sum.inr true, _) => .error .unsat

/-- The `modded_constraints.drain()` usefulness pass of `propagate`
(lines 603-611). -/
def moddedPass (d : Data) (modded : List Nat) : Res Data :=
  modded.foldlM
    (fun d cidx =>
      if (d.constraints.getD cidx cdefault).is_tautology then .ok d
      else do
        let r ← d.cstr_useful cidx
        if r.1 then .ok r.2 else r.2.tautologize cidx)
    d

/-- One surviving sample of the propagation inner loop (lines 551-613):
remove the subsumed inverse-map keys and update every constraint they
reference. -/
def handleOne (pred : Nat) (pol : Bool) (d : Data) (args : Args) : Res Data :=
  match d.remove_subs pred args with
  | (none, d) => .ok d
  | (some cstrs, d) => do
    let r ← cstrs.foldlM (forceOne pred args pol) (d, [])
    moddedPass r.1 r.2

/-- The `'propagate` loop of `Data::propagate` (lines 494-626), fuel-bounded.
Fuel is only consumed by loop iterations; the loop exits when the staging
queue pops nothing, then shrinks the constraints. -/
def propagateLoop (fuel : Nat) (d : Data) (posCnt negCnt : Nat) :
    Res ((Nat × Nat) × Data) :=
  match d.staged.pop with
  | none => .ok ((posCnt, negCnt), d.shrink_constraints)
  | some (pred, argss, pol, st') =>
    match fuel with
    | 0 => .error .fuel
    | fuel + 1 =>
      let fs := filterStep argss (target { d with staged := st' } pred pol)
      let d2 := setTarget { d with staged := st' } pred pol fs.2
      if fs.1.isEmpty then propagateLoop fuel d2 posCnt negCnt
      else
        match fs.1.foldlM (handleOne pred pol) d2 with
        | .error e => .error e
        | .ok d3 =>
          propagateLoop fuel d3
            (if pol then posCnt + fs.1.length else posCnt)
            (if pol then negCnt else negCnt + fs.1.length)

/-- `Data::propagate` (lines 494-626): drain the staging queue to a fixed
point, returning the counts of newly admitted positive and negative
samples. -/
def propagate (fuel : Nat) (d : Data) : Res ((Nat × Nat) × Data) :=
  propagateLoop fuel d 0 0

/-- Hashcons interning of a raw argument tuple (`var_to::vals::new`):
record the tuple in the factory. -/
def intern (d : Data) (args : Args) : Data :=
  { d with factory := sInsert args d.factory }

/-- `Data::add_pos_untracked` (lines 308-312): stage a positive sample. -/
def add_pos_untracked (d : Data) (pred : Nat) (args : Args) : Bool × Data :=
  ((d.staged.add pred args true).1,
    { d with staged := (d.staged.add pred args true).2 })

/-- `Data::add_neg_untracked` (lines 352-356): stage a negative sample. -/
def add_neg_untracked (d : Data) (pred : Nat) (args : Args) : Bool × Data :=
  ((d.staged.add pred args false).1,
    { d with staged := (d.staged.add pred args false).2 })

/-- `Data::add_pos` (lines 288-302): stage the sample and record a
dependency edge when the graph is on and the sample is new. -/
def add_pos (d0 : Data) (clause : Nat) (pred : Nat) (args : Args) :
    Bool × Data :=
  let isNew := (d0.add_pos_untracked pred args).1
  let d := (d0.add_pos_untracked pred args).2
  if isNew then
    match d.graph with
    | some g => (true, { d with graph := some (SampleEdge.pos pred args clause :: g) })
    | none => (true, d)
  else (false, d)

/-- `Data::add_neg` (lines 319-346). -/
def add_neg (d0 : Data) (clause : Nat) (pred : Nat) (args : Args) :
    Bool × Data :=
  let isNew := (d0.add_neg_untracked pred args).1
  let d := (d0.add_neg_untracked pred args).2
  if isNew then
    match d.graph with
    | some g => (true, { d with graph := some (SampleEdge.neg clause :: g) })
    | none => (true, d)
  else (false, d)

/-- `Data::add_raw_pos` (lines 260-266): intern, then `add_pos`. -/
def add_raw_pos (d : Data) (clause : Nat) (pred : Nat) (args : Args) : Data :=
  ((d.intern args).add_pos clause pred args).2

/-- `Data::add_raw_neg` (lines 273-279). -/
def add_raw_neg (d : Data) (clause : Nat) (pred : Nat) (args : Args) : Data :=
  ((d.intern args).add_neg clause pred args).2

/-- `Data::raw_add_cstr` (lines 636-672): shrink, install the inverse-map
links of the new constraint at the next index, register it modified, push
it, and run the usefulness check. -/
def raw_add_cstr (d : Data) (c : Constraint) : Res (Bool × Data) := do
  let d := d.shrink_constraints
  let idx := d.constraints.length
  let linkAdd := fun (map : List (List (Args × List Nat))) (p : Nat) (a : Args) =>
    map.set p (aupdate (mget map p) a (sInsert idx ((alookup (mget map p) a).getD [])))
  let map :=
    match c.lhs with
    | some l => l.foldl (fun m e => e.2.foldl (fun m a => linkAdd m e.1 a) m) d.map
    | none => d.map
  let map :=
    match c.rhs with
    | some s => linkAdd map s.pred s.args
    | none => map
  let d := { d with
    map := map
    cstr_info := d.cstr_info.register_modded idx c
    constraints := d.constraints ++ [c] }
  let r ← d.cstr_useful idx
  if r.1 then .ok (true, r.2)
  else do
    let d ← r.2.tautologize idx
    .ok (false, d)

/-- Insert a raw lhs atom into the accumulated lhs map of `add_cstr`
(lines 742-749): a plain set insert, no subsumption check. -/
def nuInsert (nu : List (Nat × List Args)) (pred : Nat) (args : Args) :
    List (Nat × List Args) :=
  aupdate nu pred (sInsert args ((alookup nu pred).getD []))

/-- The `'lhs_iter` pre-check of `add_cstr` (lines 720-750): intern each
raw atom, drop the atoms subsumed by a positive witness, and return `none`
when an atom is subsumed by a negative witness (the constraint is
trivially true).  The subsumption checks are skipped for a sample that is
new to the factory when partial samples are off. -/
def precheckLhs (d : Data) (atoms : List (Nat × Args))
    (nu : List (Nat × List Args)) : Data × Option (List (Nat × List Args)) :=
  match atoms with
  | [] => (d, some nu)
  | (pred, args) :: rest =>
    if d.cfg.partialSamples = true ∨ args ∈ d.factory then
      if setSubsumed args (d.pos.getD pred []) then
        precheckLhs (d.intern args) rest nu
      else if setSubsumed args (d.neg.getD pred []) then (d.intern args, none)
      else precheckLhs (d.intern args) rest (nuInsert nu pred args)
    else precheckLhs (d.intern args) rest (nuInsert nu pred args)

/-- The `'get_rhs` pre-check of `add_cstr` (lines 752-793): `none` when
the constraint is trivially satisfied, `some none` when the rhs is dropped
(subsumed by a negative witness), `some (some s)` otherwise. -/
def precheckRhs (d : Data) (nu : List (Nat × List Args))
    (rhs : Option (Nat × Args)) : Data × Option (Option Sample) :=
  match rhs with
  | none => (d, some none)
  | some (pred, args) =>
    if d.cfg.partialSamples = true ∨ args ∈ d.factory then
      if setSubsumed args (d.pos.getD pred []) then (d.intern args, none)
      else if setSubsumed args (d.neg.getD pred []) then
        (d.intern args, some none)
      else if args ∈ (alookup nu pred).getD [] then (d.intern args, none)
      else (d.intern args, some (some ⟨pred, args⟩))
    else if args ∈ (alookup nu pred).getD [] then (d.intern args, none)
    else (d.intern args, some (some ⟨pred, args⟩))

/-- The dependency-edge recording step of `add_cstr` (lines 797-838),
reached once the constraint is known not to be trivially discharged. -/
def graphRecord (d : Data) (clause : Nat) (rhs : Option (Nat × Args)) : Data :=
  match d.graph with
  | some g =>
    match rhs with
    | some (p, a) => { d with graph := some (SampleEdge.pos p a clause :: g) }
    | none => { d with graph := some (SampleEdge.neg clause :: g) }
  | none => d

/-- The `true ⇒ ⊥` recovery of `add_cstr` (lines 868-891), after the
contradictory constituent has been staged: propagate, then raise the
dedicated Unsat error. -/
def addCstrUnsat (fuel : Nat) (d : Data) : Res (Bool × Data) := do
  let _ ← d.propagate fuel
  .error .unsat

/-- The tail of `add_cstr` (lines 852-892): dispatch on the triviality of
the constructed constraint — stage a single sample, install the
constraint, or stage a contradictory constituent and surface UNSAT. -/
def addCstrFinish (fuel : Nat) (d : Data) (lhs : List (Nat × Args))
    (rhs : Option (Nat × Args)) (c : Constraint) : Res (Bool × Data) :=
  match c.is_trivial with
  | (Sum.inl (s, pol), _) =>
    .ok ((d.staged.add s.pred s.args pol).1,
      { d with staged := (d.staged.add s.pred s.args pol).2 })
  | (Sum.inr false, _) => d.raw_add_cstr c
  | (Sum.inr true, _) =>
    match rhs with
    | some (p, a) => addCstrUnsat fuel (((d.intern a).add_pos_untracked p a).2)
    | none =>
      match lhs.getLast? with
      | some (p, a) =>
        addCstrUnsat fuel (((d.intern a).add_neg_untracked p a).2)
      | none => .error .trueFalseRequest

/-- `Data::add_cstr` (lines 684-893): propagate, pre-check the raw atoms
against the current witnesses, record the dependency edge, then install
the constraint or handle its degenerate shapes. -/
def add_cstr (fuel : Nat) (d : Data) (clause : Nat)
    (lhs : List (Nat × Args)) (rhs : Option (Nat × Args)) : Res (Bool × Data) := do
  let r0 ← d.propagate fuel
  match r0.2.precheckLhs lhs [] with
  | (d, none) => .ok (false, d)
  | (d, some nuLhs) =>
    match d.precheckRhs nuLhs rhs with
    | (d, none) => .ok (false, d)
    | (d, some nuRhs) =>
      addCstrFinish fuel (d.graphRecord clause rhs) lhs rhs ⟨some nuLhs, nuRhs⟩

/-- `Data::force_pred` (lines 908-973): drain every constraint mentioning
`pred` from the inverse map, force the predicate on each, apply the
triviality / usefulness discipline, then propagate. -/
def force_pred (fuel : Nat) (d : Data) (pred : Nat) (pol : Bool) : Res Data := do
  let cstrs := ((mget d.map pred).flatMap (fun e => e.2)).dedup
  let d := { d with map := d.map.set pred [] }
  let fr ← cstrs.foldlM
    (fun (acc : Data × List Nat) cidx => do
      let r ← (acc.1.constraints.getD cidx cdefault).force cidx pred pol
        acc.1.map
      let d : Data :=
        { acc.1 with
          constraints := acc.1.constraints.set cidx r.1, map := r.2.1 }
      if r.2.2 then
        .ok ({ d with cstr_info := d.cstr_info.forget cidx }, acc.2)
      else
        match r.1.is_trivial with
        | (Sum.inl (s, pol'), c') => .ok (d.stageTrivial cidx s pol' c', acc.2)
        | (Sum.inr false, _) =>
          .ok ({ d with cstr_info := d.cstr_info.register_modded cidx r.1 },
            sInsert cidx acc.2)
        | (Sum.inr true, _) => .error .unsat)
    (d, [])
  let d2 ← moddedPass fr.1 fr.2
  let rp ← d2.propagate fuel
  .ok rp.2

/-- The sample-draining loops of `merge_samples` (lines 177-186): stage
every positive and negative sample of `other`. -/
def stageAll (d other : Data) : Data :=
  other.neg.enum.foldl
    (fun d pe => pe.2.foldl (fun d a => (d.add_neg_untracked pe.1 a).2) d)
    (other.pos.enum.foldl
      (fun d pe => pe.2.foldl (fun d a => (d.add_pos_untracked pe.1 a).2) d) d)

/-- `Data::merge_samples` (lines 176-195): drain the other store's samples
through the staging queue, merge the dependency graphs — an error when the
receiver tracks and the argument does not — then propagate. -/
def merge_samples (fuel : Nat) (d other : Data) : Res ((Nat × Nat) × Data) :=
  match (stageAll d other).graph, other.graph with
  | some g, some og =>
    Data.propagate fuel { stageAll d other with graph := some (g ++ og) }
  | some _, none => Except.error Err.inconsistentDepTracking
  | none, _ => Data.propagate fuel (stageAll d other)

/-- `Data::clone_new_constraints` (lines 157-169): seed a fresh store with
the non-tautology modified constraints, then clear the modified set. -/
def clone_new_constraints (d : Data) : Res (Option Data × Data) := do
  let res ← d.cstr_info.modded.foldlM
    (fun (acc : Option Data) idx =>
      if (d.constraints.getD idx cdefault).is_tautology then Except.ok acc
      else do
        let r ← (acc.getD (Data.new d.cfg d.predCount)).raw_add_cstr
          (d.constraints.getD idx cdefault)
        Except.ok (some r.2))
    none
  .ok (res, { d with cstr_info := d.cstr_info.clear_modded })

/-- `impl Clone for Data` (lines 51-66): duplicate every store but always
start the clone with `graph = None` and a fresh profiler. -/
def cloneData (d : Data) : Data :=
  { cfg := d.cfg
    predCount := d.predCount
    pos := d.pos
    neg := d.neg
    constraints := d.constraints
    map := d.map
    staged := d.staged
    cstr_info := d.cstr_info
    graph := none
    factory := d.factory }

end Data

/-! ## Basic lemmas about the embedding -/

theorem bind_ok {α β : Type} {x : Res α} {f : α → Res β} {b : β}
    (h : (x >>= f) = .ok b) : ∃ a, x = .ok a ∧ f a = .ok b := by
  cases x with
  | ok a => exact ⟨a, rfl, h⟩
  | error e => simp [Bind.bind, Except.bind] at h

theorem foldlM_rel {α γ : Type} {step : γ → α → Res γ} {l : List α} {i o : γ}
    (R : γ → γ → Prop) (hrefl : ∀ g, R g g)
    (htrans : ∀ a b c, R a b → R b c → R a c)
    (hstep : ∀ g x g', x ∈ l → step g x = .ok g' → R g g')
    (h : l.foldlM step i = .ok o) : R i o := by
  induction l generalizing i with
  | nil =>
    have heq : i = o := by simpa [pure, Except.pure] using h
    exact heq ▸ hrefl i
  | cons x xs ih =>
    simp only [List.foldlM_cons] at h
    obtain ⟨g, hg, hrest⟩ := bind_ok h
    exact htrans _ _ _ (hstep i x g (by simp) hg)
      (ih (fun g x g' hx => hstep g x g' (by simp [hx])) hrest)

theorem foldl_pres {α γ : Type} {f : γ → α → γ} {l : List α} {i : γ}
    (P : γ → Prop) (hstep : ∀ g x, P g → P (f g x)) (h : P i) :
    P (l.foldl f i) := by
  induction l generalizing i with
  | nil => exact h
  | cons x xs ih => exact ih (hstep i x h)

theorem firstSome_eq_none {α β : Type} {f : α → Option β} {l : List α} :
    firstSome f l = none ↔ ∀ a ∈ l, f a = none := by
  induction l with
  | nil => simp [firstSome]
  | cons x xs ih =>
    simp only [firstSome]
    cases hx : f x with
    | some b => simp [hx]
    | none => simpa [hx] using ih

theorem firstSome_eq_some {α β : Type} {f : α → Option β} {l : List α} {b : β}
    (h : firstSome f l = some b) : ∃ a ∈ l, f a = some b := by
  induction l with
  | nil => simp [firstSome] at h
  | cons x xs ih =>
    simp only [firstSome] at h
    cases hx : f x with
    | some b' =>
      rw [hx] at h
      cases h
      exact ⟨x, by simp, hx⟩
    | none =>
      rw [hx] at h
      obtain ⟨a, ha, hfa⟩ := ih h
      exact ⟨a, by simp [ha], hfa⟩

theorem getD_set_ne {α : Type} (l : List α) (i j : Nat) (v dflt : α)
    (h : i ≠ j) : (l.set i v).getD j dflt = l.getD j dflt := by
  simp [List.getD_eq_getElem?_getD, List.getElem?_set_ne h]

theorem getD_set_lt {α : Type} (l : List α) (i : Nat) (v dflt : α)
    (h : i < l.length) : (l.set i v).getD i dflt = v := by
  simp [List.getD_eq_getElem?_getD, List.getElem?_set_self h]

theorem getD_ge {α : Type} (l : List α) (i : Nat) (dflt : α)
    (h : l.length ≤ i) : l.getD i dflt = dflt := by
  simp [List.getD_eq_getElem?_getD, List.getElem?_eq_none_iff.mpr h]

namespace Data

theorem dtt_cons_nil {c : Constraint} {rest : List Constraint}
    (h : dropTrailingTautos rest = []) :
    dropTrailingTautos (c :: rest) =
      if c.is_tautology then [] else [c] := by
  simp [dropTrailingTautos, h]

theorem dtt_cons_cons {c : Constraint} {rest : List Constraint} {r : Constraint}
    {rs : List Constraint} (h : dropTrailingTautos rest = r :: rs) :
    dropTrailingTautos (c :: rest) = c :: r :: rs := by
  simp [dropTrailingTautos, h]

theorem dropTrailingTautos_prefix (l : List Constraint) :
    dropTrailingTautos l <+: l := by
  induction l with
  | nil => simp [dropTrailingTautos]
  | cons c rest ih =>
    cases h : dropTrailingTautos rest with
    | nil =>
      rw [dtt_cons_nil h]
      by_cases hc : c.is_tautology = true <;> simp [hc]
    | cons r rs =>
      rw [dtt_cons_cons h]
      rw [h] at ih
      exact (List.prefix_cons_inj c).mpr ih

theorem dropTrailingTautos_suffix (l : List Constraint) :
    ∀ i, (dropTrailingTautos l).length ≤ i → i < l.length →
      (l.getD i cdefault).is_tautology = true := by
  induction l with
  | nil => intro i _ hi; simp at hi
  | cons c rest ih =>
    intro i hlen hi
    cases h : dropTrailingTautos rest with
    | nil =>
      rw [dtt_cons_nil h] at hlen
      by_cases hc : c.is_tautology = true
      · cases i with
        | zero => simpa [List.getD] using hc
        | succ j =>
          have := ih j (by simp [h]) (by simpa using hi)
          simpa [List.getD] using this
      · rw [if_neg hc] at hlen
        simp only [List.length_singleton] at hlen
        cases i with
        | zero => omega
        | succ j =>
          have := ih j (by simp [h]) (by simpa using hi)
          simpa [List.getD] using this
    | cons r rs =>
      rw [dtt_cons_cons h] at hlen
      simp only [List.length_cons] at hlen
      cases i with
      | zero => omega
      | succ j =>
        have := ih j (by rw [h]; simp only [List.length_cons]; omega)
          (by simpa using hi)
        simpa [List.getD] using this

theorem dropTrailingTautos_last (l : List Constraint) (c : Constraint)
    (h : (dropTrailingTautos l).getLast? = some c) : c.is_tautology = false := by
  induction l with
  | nil => simp [dropTrailingTautos] at h
  | cons x rest ih =>
    cases hr : dropTrailingTautos rest with
    | nil =>
      rw [dtt_cons_nil hr] at h
      by_cases hx : x.is_tautology = true
      · simp [hx] at h
      · rw [if_neg hx] at h
        simp only [List.getLast?_singleton, Option.some_inj] at h
        rw [← h]
        simpa using hx
    | cons r rs =>
      rw [dtt_cons_cons hr, List.getLast?_cons_cons] at h
      exact ih (by rw [hr]; exact h)

theorem dropTrailingTautos_idem (l : List Constraint) :
    dropTrailingTautos (dropTrailingTautos l) = dropTrailingTautos l := by
  induction l with
  | nil => simp [dropTrailingTautos]
  | cons c rest ih =>
    cases h : dropTrailingTautos rest with
    | nil =>
      rw [dtt_cons_nil h]
      by_cases hc : c.is_tautology = true
      · simp [hc, dropTrailingTautos]
      · rw [if_neg hc]
        rw [dtt_cons_nil (by simp [dropTrailingTautos]), if_neg hc]
    | cons r rs =>
      rw [dtt_cons_cons h]
      rw [h] at ih
      exact dtt_cons_cons ih

theorem shrink_idem (d : Data) :
    d.shrink_constraints.shrink_constraints = d.shrink_constraints := by
  simp only [shrink_constraints, dropTrailingTautos_idem, List.map_map]
  have hf : ((fun pm : List (Args × List Nat) =>
        pm.filter (fun e => ¬ e.2.isEmpty)) ∘
      (fun pm : List (Args × List Nat) =>
        pm.filter (fun e => ¬ e.2.isEmpty))) =
      (fun pm : List (Args × List Nat) =>
        pm.filter (fun e => ¬ e.2.isEmpty)) := by
    funext pm
    simp [Function.comp, List.filter_filter]
  rw [hf]

@[simp] theorem shrink_pos (d : Data) : d.shrink_constraints.pos = d.pos := rfl
@[simp] theorem shrink_neg (d : Data) : d.shrink_constraints.neg = d.neg := rfl
@[simp] theorem shrink_staged (d : Data) :
    d.shrink_constraints.staged = d.staged := rfl

end Data

namespace Staged

theorem pop_none_iff (s : Staged) : s.pop = none ↔ s.pos = [] ∧ s.neg = [] := by
  cases s with
  | mk p n =>
    cases p <;> cases n <;> simp [pop]

theorem pop_of_is_empty {s : Staged} (h : s.is_empty = true) : s.pop = none := by
  cases s with
  | mk p n =>
    simp only [is_empty, Bool.and_eq_true, List.isEmpty_iff] at h
    simp [pop, h.1, h.2]

end Staged

/-! ## Claim C9: the shape of `Val` -/

/-- **C9, counterexample.**  The claim says `Val` has one constructor for
each of six shapes (unknown, booleans, integers, rationals, ADT
applications, constant arrays).  In the code (`src/term/val.rs` lines
8-16) every `Val` is a boolean, an integer, or `N`: no value lies outside
these three shapes, so no rational, ADT or array value is representable. -/
theorem C9_counterexample :
    ¬ ∃ v : Val, (∀ b, v ≠ Val.B b) ∧ (∀ i, v ≠ Val.I i) ∧ v ≠ Val.N := by
  rintro ⟨v, hB, hI, hN⟩
  cases v with
  | B b => exact hB b rfl
  | I i => exact hI i rfl
  | N => exact hN rfl

/-- **C9, amended.**  The value type `Val` is a tagged union with one
constructor for each of: unknown `⊥` (`N`), booleans, and integers; every
value of each of these three shapes is representable; there are no
constructors for rationals, ADT applications or constant arrays. -/
theorem C9_val_shapes :
    (∀ v : Val, v = Val.N ∨ (∃ b, v = Val.B b) ∨ (∃ i, v = Val.I i)) ∧
    (∀ b : Bool, ∃ v : Val, v = Val.B b) ∧
    (∀ i : Int, ∃ v : Val, v = Val.I i) ∧
    (∃ v : Val, v = Val.N) := by
  refine ⟨fun v => ?_, fun b => ⟨Val.B b, rfl⟩, fun i => ⟨Val.I i, rfl⟩,
    ⟨Val.N, rfl⟩⟩
  cases v with
  | B b => exact Or.inr (Or.inl ⟨b, rfl⟩)
  | I i => exact Or.inr (Or.inr ⟨i, rfl⟩)
  | N => exact Or.inl rfl

/-! ## Claim C10: the `Clone` implementation -/

/-- **C10.**  `impl Clone for Data` (`src/data/mod.rs` lines 51-66)
duplicates the positive samples, negative samples, constraints, inverse
map and constraint info, but the clone's dependency graph is always
`None` — even when the original tracks samples and holds a non-empty
graph. -/
theorem C10_clone_drops_graph (d : Data) (g : SampleGraph) :
    (Data.cloneData d).pos = d.pos ∧
    (Data.cloneData d).neg = d.neg ∧
    (Data.cloneData d).constraints = d.constraints ∧
    (Data.cloneData d).map = d.map ∧
    (Data.cloneData d).cstr_info = d.cstr_info ∧
    (Data.cloneData d).graph = none ∧
    (Data.cloneData { d with graph := some g }).graph = none :=
  ⟨rfl, rfl, rfl, rfl, rfl, rfl, rfl⟩

/-! ## Claim C8: `shrink_constraints` -/

/-- **C8.**  `Data::shrink_constraints` (lines 381-402) keeps a prefix of
the constraint vector (so remaining indices are unchanged), removes only
tautology constraints (everything beyond the kept prefix is a tautology),
removes the maximal such suffix (the last kept constraint is live), and
drops from every `map[p]` exactly the entries whose constraint set is
empty. -/
theorem C8_shrink_constraints (d : Data) :
    (Data.shrink_constraints d).constraints <+: d.constraints ∧
    (∀ i, (Data.shrink_constraints d).constraints.length ≤ i →
        i < d.constraints.length →
        (d.constraints.getD i cdefault).is_tautology = true) ∧
    (∀ c, (Data.shrink_constraints d).constraints.getLast? = some c →
        c.is_tautology = false) ∧
    (∀ p, (Data.shrink_constraints d).map.getD p [] =
        (d.map.getD p []).filter (fun e => ¬ e.2.isEmpty)) := by
  refine ⟨Data.dropTrailingTautos_prefix d.constraints,
    Data.dropTrailingTautos_suffix d.constraints,
    Data.dropTrailingTautos_last d.constraints, fun p => ?_⟩
  show (d.map.map _).getD p [] = _
  by_cases hp : p < d.map.length
  · simp [List.getD_eq_getElem?_getD, List.getElem?_map,
      List.getElem?_eq_getElem hp]
  · rw [getD_ge _ _ _ (by simpa using Nat.le_of_not_lt hp),
      getD_ge _ _ _ (Nat.le_of_not_lt hp)]
    rfl

/-! ## Claim C4: `is_unsat` -/

/-- **C4.**  `Data::is_unsat` (lines 471-486) returns `some` witness pair
iff some predicate has a positive sample and a negative sample comparable
under `⊑`; the returned pair is such a positive and negative sample of
the same predicate; otherwise it returns `none`. -/
theorem C4_is_unsat_iff (d : Data) :
    (Data.is_unsat d = none ↔
      ¬ ∃ p a b, p < d.pos.length ∧ a ∈ d.pos.getD p [] ∧
        b ∈ d.neg.getD p [] ∧ (argsCompare a b).isSome = true) ∧
    (∀ l, Data.is_unsat d = some l →
      ∃ p a b, p < d.pos.length ∧ a ∈ d.pos.getD p [] ∧
        b ∈ d.neg.getD p [] ∧ (argsCompare a b).isSome = true ∧
        l = [(p, a), (p, b)]) := by
  constructor
  · unfold Data.is_unsat
    rw [firstSome_eq_none]
    constructor
    · rintro h ⟨p, a, b, hp, ha, hb, hc⟩
      have h1 := h p (List.mem_range.mpr hp)
      rw [firstSome_eq_none] at h1
      have h2 := h1 a ha
      rw [firstSome_eq_none] at h2
      have h3 := h2 b hb
      rw [if_pos hc] at h3
      cases h3
    · intro h p hp
      rw [firstSome_eq_none]
      intro a ha
      rw [firstSome_eq_none]
      intro b hb
      by_cases hc : (argsCompare a b).isSome = true
      · exact absurd ⟨p, a, b, List.mem_range.mp hp, ha, hb, hc⟩ h
      · rw [if_neg hc]
  · intro l hl
    unfold Data.is_unsat at hl
    obtain ⟨p, hp, h1⟩ := firstSome_eq_some hl
    obtain ⟨a, ha, h2⟩ := firstSome_eq_some h1
    obtain ⟨b, hb, h3⟩ := firstSome_eq_some h2
    by_cases hc : (argsCompare a b).isSome = true
    · rw [if_pos hc] at h3
      cases h3
      exact ⟨p, a, b, List.mem_range.mp hp, ha, hb, hc, rfl⟩
    · rw [if_neg hc] at h3
      cases h3

/-- Concrete store for the C8 witness: a live constraint followed by a
trailing tautology, and a map entry with an empty constraint set. -/
def c8data : Data :=
  { Data.new ⟨false, false⟩ 2 with
    constraints := [⟨some [(0, [[Val.I 3]])], none⟩, cdefault]
    map := [[([Val.I 3], [0]), ([Val.I 9], [])], []] }

/-- **C8, witness.** -/
theorem C8_witness :
    (Data.shrink_constraints c8data).constraints <+: c8data.constraints ∧
    (∀ i, (Data.shrink_constraints c8data).constraints.length ≤ i →
        i < c8data.constraints.length →
        (c8data.constraints.getD i cdefault).is_tautology = true) ∧
    (∀ c, (Data.shrink_constraints c8data).constraints.getLast? = some c →
        c.is_tautology = false) ∧
    (∀ p, (Data.shrink_constraints c8data).map.getD p [] =
        (c8data.map.getD p []).filter (fun e => ¬ e.2.isEmpty)) :=
  C8_shrink_constraints c8data

/-- Concrete store for the C4 witness: `pos[P] = {(3)}`, `neg[P] = {(3)}`
(the "pos/neg consistency" seed scenario). -/
def c4data : Data :=
  { Data.new ⟨false, false⟩ 1 with
    pos := [[[Val.I 3]]], neg := [[[Val.I 3]]] }

/-- **C4, witness.** -/
theorem C4_witness :
    ∃ p a b, p < c4data.pos.length ∧ a ∈ c4data.pos.getD p [] ∧
      b ∈ c4data.neg.getD p [] ∧ (argsCompare a b).isSome = true ∧
      [(0, ([Val.I 3] : Args)), (0, ([Val.I 3] : Args))] = [(p, a), (p, b)] :=
  (C4_is_unsat_iff c4data).2 [(0, [Val.I 3]), (0, [Val.I 3])] (by decide)

/-! ## Claim C7: `merge_samples` dependency-tracking mismatch -/

/-- The sample-staging folds of `merge_samples` do not touch the receiver's
dependency graph. -/
theorem stageAll_graph (d other : Data) :
    (Data.stageAll d other).graph = d.graph := by
  unfold Data.stageAll
  refine foldl_pres (fun y : Data => y.graph = d.graph) ?_ ?_
  · intro y pe hy
    refine foldl_pres (fun z : Data => z.graph = d.graph) ?_ hy
    intro z a hz
    simpa [Data.add_neg_untracked] using hz
  · refine foldl_pres (fun y : Data => y.graph = d.graph) ?_ rfl
    intro y pe hy
    refine foldl_pres (fun z : Data => z.graph = d.graph) ?_ hy
    intro z a hz
    simpa [Data.add_pos_untracked] using hz

/-- **C7, counterexample.**  The claim says the inconsistent-dependency-
tracking error is raised in both directions.  When the receiver has no
graph and the argument has one, `merge_samples` silently succeeds
(`src/data/mod.rs` lines 187-193: the check is only reached under
`if let Some(graph) = self.graph`). -/
theorem C7_counterexample :
    (Data.new ⟨false, false⟩ 1).graph = none ∧
    ({ Data.new ⟨false, true⟩ 1 with
        graph := some [SampleEdge.neg 0] } : Data).graph =
      some [SampleEdge.neg 0] ∧
    Data.merge_samples 3 (Data.new ⟨false, false⟩ 1)
        { Data.new ⟨false, true⟩ 1 with graph := some [SampleEdge.neg 0] } =
      .ok ((0, 0), Data.new ⟨false, false⟩ 1) := by
  refine ⟨rfl, rfl, ?_⟩
  decide

/-- **C7, amended.**  `merge_samples` raises the inconsistent-dependency-
tracking error exactly when the receiver has a dependency graph and the
argument does not; in the opposite direction (receiver without a graph,
argument with one) it silently succeeds, discarding the argument's
graph. -/
theorem C7_merge_requires_graph (fuel : Nat) (d other : Data) (g : SampleGraph)
    (hd : d.graph = some g) (ho : other.graph = none) :
    Data.merge_samples fuel d other = .error Err.inconsistentDepTracking := by
  have hg : (Data.stageAll d other).graph = some g := by
    rw [stageAll_graph, hd]
  unfold Data.merge_samples
  split
  · rename_i g' og hg' ho'
    rw [ho'] at ho
    cases ho
  · rfl
  · rename_i hnone ho'
    rw [ho'] at hg
    cases hg

/-- Concrete stores for the C7 witness. -/
def c7tracking : Data :=
  { Data.new ⟨false, true⟩ 1 with graph := some [SampleEdge.neg 0] }

def c7plain : Data := Data.new ⟨false, false⟩ 1

/-- **C7, witness.** -/
theorem C7_witness :
    Data.merge_samples 3 c7tracking c7plain =
      .error Err.inconsistentDepTracking :=
  C7_merge_requires_graph 3 c7tracking c7plain [SampleEdge.neg 0] rfl rfl

/-! ## Claim C1: `cstr_useful` -/

/-- Frame and effect of `Data::tautologize`: the sample stores and the
staging queue are untouched, other constraint slots are untouched, and the
tautologized slot is flagged. -/
theorem tautologize_frame {d : Data} {j : Nat} {d' : Data}
    (h : d.tautologize j = .ok d') :
    d'.pos = d.pos ∧ d'.neg = d.neg ∧ d'.staged = d.staged ∧
    (∀ k, k ≠ j →
      d'.constraints.getD k cdefault = d.constraints.getD k cdefault) ∧
    (d'.constraints.getD j cdefault).is_tautology = true := by
  have hset : ∀ m2 ci,
      d' = { d with
        map := m2
        constraints := d.constraints.set j cdefault
        cstr_info := ci } →
      d'.pos = d.pos ∧ d'.neg = d.neg ∧ d'.staged = d.staged ∧
      (∀ k, k ≠ j →
        d'.constraints.getD k cdefault = d.constraints.getD k cdefault) ∧
      (d'.constraints.getD j cdefault).is_tautology = true := by
    rintro m2 ci rfl
    refine ⟨rfl, rfl, rfl, fun k hk => getD_set_ne _ _ _ _ _ (Ne.symm hk), ?_⟩
    by_cases hj : j < d.constraints.length
    · rw [getD_set_lt _ _ _ _ hj]
      rfl
    · rw [getD_ge _ _ _ (by simpa using Nat.le_of_not_lt hj)]
      rfl
  unfold Data.tautologize at h
  split at h
  · rename_i heq
    simp only [Except.ok.injEq] at h
    subst h
    refine ⟨rfl, rfl, rfl, fun k _ => rfl, ?_⟩
    simp only [Constraint.is_tautology, heq, Option.isNone]
  · obtain ⟨m1, h1, h⟩ := bind_ok h
    simp only [Except.ok.injEq] at h
    exact hset m1 _ h.symm
  · obtain ⟨m1, h1, h⟩ := bind_ok h
    obtain ⟨m2, h2, h⟩ := bind_ok h
    simp only [Except.ok.injEq] at h
    exact hset m2 _ h.symm

/-- Full characterization of the `cstr_useful` inner loop over a
duplicate-free list of similar constraints distinct from the candidate:
the sample stores are untouched, untouched slots keep their constraints,
the result is useless exactly when some examined constraint strictly
implies the candidate, implied or equal examined constraints end up
tautologized, and incomparable ones are untouched. -/
theorem usefulLoop_spec {idx : Nat} {l : List Nat} {u b : Bool} {d d' : Data}
    (hnd : l.Nodup) (hl : ∀ j ∈ l, j ≠ idx)
    (h : Data.usefulLoop idx l u d = .ok (b, d')) :
    d'.pos = d.pos ∧ d'.neg = d.neg ∧ d'.staged = d.staged ∧
    (∀ k, k ∉ l →
      d'.constraints.getD k cdefault = d.constraints.getD k cdefault) ∧
    (b = true ↔ u = true ∧ ∀ j ∈ l,
        Constraint.compare (d.constraints.getD idx cdefault)
          (d.constraints.getD j cdefault) ≠ some Ordering.lt) ∧
    (∀ j ∈ l,
      (Constraint.compare (d.constraints.getD idx cdefault)
          (d.constraints.getD j cdefault) = some Ordering.eq ∨
        Constraint.compare (d.constraints.getD idx cdefault)
          (d.constraints.getD j cdefault) = some Ordering.gt) →
      (d'.constraints.getD j cdefault).is_tautology = true) ∧
    (∀ j ∈ l,
      Constraint.compare (d.constraints.getD idx cdefault)
          (d.constraints.getD j cdefault) = none →
      d'.constraints.getD j cdefault = d.constraints.getD j cdefault) := by
  induction l generalizing u d with
  | nil =>
    simp only [Data.usefulLoop, Except.ok.injEq, Prod.mk.injEq] at h
    obtain ⟨rfl, rfl⟩ := h
    simp
  | cons j rest ih =>
    have hji : j ≠ idx := hl j (by simp)
    have hjrest : j ∉ rest := (List.nodup_cons.mp hnd).1
    have hndr : rest.Nodup := (List.nodup_cons.mp hnd).2
    have hlr : ∀ k ∈ rest, k ≠ idx := fun k hk => hl k (by simp [hk])
    unfold Data.usefulLoop at h
    have step_tauto : ∀ (heq : Constraint.compare (d.constraints.getD idx cdefault)
          (d.constraints.getD j cdefault) = some Ordering.eq ∨
        Constraint.compare (d.constraints.getD idx cdefault)
          (d.constraints.getD j cdefault) = some Ordering.gt),
        ((d.tautologize j) >>= fun d => Data.usefulLoop idx rest u d) =
          Except.ok (b, d') →
        d'.pos = d.pos ∧ d'.neg = d.neg ∧ d'.staged = d.staged ∧
        (∀ k, k ∉ j :: rest →
          d'.constraints.getD k cdefault = d.constraints.getD k cdefault) ∧
        (b = true ↔ u = true ∧ ∀ k ∈ j :: rest,
            Constraint.compare (d.constraints.getD idx cdefault)
              (d.constraints.getD k cdefault) ≠ some Ordering.lt) ∧
        (∀ k ∈ j :: rest,
          (Constraint.compare (d.constraints.getD idx cdefault)
              (d.constraints.getD k cdefault) = some Ordering.eq ∨
            Constraint.compare (d.constraints.getD idx cdefault)
              (d.constraints.getD k cdefault) = some Ordering.gt) →
          (d'.constraints.getD k cdefault).is_tautology = true) ∧
        (∀ k ∈ j :: rest,
          Constraint.compare (d.constraints.getD idx cdefault)
              (d.constraints.getD k cdefault) = none →
          d'.constraints.getD k cdefault = d.constraints.getD k cdefault) := by
      intro heq h
      obtain ⟨d1, h1, h⟩ := bind_ok h
      obtain ⟨hpos1, hneg1, hst1, hfr1, htau1⟩ := tautologize_frame h1
      obtain ⟨hpos, hneg, hst, hfr, hb, htau, hunt⟩ := ih hndr hlr h
      have hidx : d1.constraints.getD idx cdefault =
          d.constraints.getD idx cdefault := hfr1 idx (Ne.symm hji)
      have horig : ∀ k ∈ rest, d1.constraints.getD k cdefault =
          d.constraints.getD k cdefault :=
        fun k hk => hfr1 k (fun hkj => hjrest (hkj ▸ hk))
      refine ⟨hpos.trans hpos1, hneg.trans hneg1, hst.trans hst1, ?_, ?_, ?_, ?_⟩
      · intro k hk
        have hkj : k ≠ j := fun hh => hk (by simp [hh])
        have hkr : k ∉ rest := fun hh => hk (by simp [hh])
        exact (hfr k hkr).trans (hfr1 k hkj)
      · rw [hb, hidx]
        constructor
        · rintro ⟨hu, hrest'⟩
          refine ⟨hu, fun k hk => ?_⟩
          rcases List.mem_cons.mp hk with rfl | hk'
          · intro hcc
            rcases heq with heq | heq <;> (rw [heq] at hcc; simp at hcc)
          · rw [← horig k hk']
            exact hrest' k hk'
        · rintro ⟨hu, hall⟩
          refine ⟨hu, fun k hk => ?_⟩
          rw [horig k hk]
          exact hall k (by simp [hk])
      · intro k hk hcmp
        rcases List.mem_cons.mp hk with rfl | hk'
        · rw [hfr k hjrest]
          exact htau1
        · exact htau k hk' (by rw [hidx, horig k hk']; exact hcmp)
      · intro k hk hcmp
        rcases List.mem_cons.mp hk with rfl | hk'
        · rcases heq with heq | heq <;> (rw [heq] at hcmp; cases hcmp)
        · rw [hunt k hk' (by rw [hidx, horig k hk']; exact hcmp)]
          exact horig k hk'
    split at h
    · rename_i heq
      exact step_tauto (Or.inl heq) h
    · rename_i heq
      exact step_tauto (Or.inr heq) h
    · rename_i heq
      obtain ⟨hpos, hneg, hst, hfr, hb, htau, hunt⟩ := ih hndr hlr h
      refine ⟨hpos, hneg, hst, ?_, ?_, ?_, ?_⟩
      · intro k hk
        exact hfr k (fun hh => hk (by simp [hh]))
      · rw [hb]
        constructor
        · rintro ⟨hu, _⟩
          cases hu
        · rintro ⟨hu, hall⟩
          exact ((hall j (by simp)) heq).elim
      · intro k hk hcmp
        rcases List.mem_cons.mp hk with rfl | hk'
        · rcases hcmp with hcmp | hcmp <;> (rw [heq] at hcmp; cases hcmp)
        · exact htau k hk' hcmp
      · intro k hk hcmp
        rcases List.mem_cons.mp hk with rfl | hk'
        · rw [heq] at hcmp
          cases hcmp
        · rw [hunt k hk' hcmp]
    · rename_i heq
      obtain ⟨hpos, hneg, hst, hfr, hb, htau, hunt⟩ := ih hndr hlr h
      refine ⟨hpos, hneg, hst, ?_, ?_, ?_, ?_⟩
      · intro k hk
        exact hfr k (fun hh => hk (by simp [hh]))
      · rw [hb]
        constructor
        · rintro ⟨hu, hrest'⟩
          refine ⟨hu, fun k hk => ?_⟩
          rcases List.mem_cons.mp hk with rfl | hk'
          · intro hcc
            rw [heq] at hcc
            simp at hcc
          · exact hrest' k hk'
        · rintro ⟨hu, hall⟩
          exact ⟨hu, fun k hk => hall k (by simp [hk])⟩
      · intro k hk hcmp
        rcases List.mem_cons.mp hk with rfl | hk'
        · rcases hcmp with hcmp | hcmp <;> (rw [heq] at hcmp; cases hcmp)
        · exact htau k hk' hcmp
      · intro k hk hcmp
        rcases List.mem_cons.mp hk with rfl | hk'
        · exact hfr k hjrest
        · exact hunt k hk' hcmp

namespace Data

/-- The set of constraint ids `cstr_useful` actually examines: the similar
set minus the candidate, deduplicated. -/
def examinedIds (d : Data) (idx : Nat) : List Nat :=
  (((d.similarIds idx).getD []).filter (fun j => j ≠ idx)).dedup

theorem examinedIds_nodup (d : Data) (idx : Nat) : (d.examinedIds idx).Nodup :=
  List.nodup_dedup _

theorem examinedIds_ne (d : Data) (idx : Nat) :
    ∀ j ∈ d.examinedIds idx, j ≠ idx := by
  intro j hj
  have := (List.mem_filter.mp (List.mem_dedup.mp hj)).2
  simpa using this

/-- Unfolding `cstr_useful` when the similar-set lookup succeeds. -/
theorem cstr_useful_eq_loop {d : Data} {idx : Nat} {sim : List Nat}
    (hsim : d.similarIds idx = some sim) :
    d.cstr_useful idx = Data.usefulLoop idx (d.examinedIds idx) true d := by
  unfold Data.cstr_useful
  rw [hsim]
  simp only [bind, Except.bind, examinedIds, hsim, Option.getD_some]

/-- Frames of `cstr_useful` used by the propagation proofs. -/
theorem cstr_useful_frames {d : Data} {idx : Nat} {b : Bool} {d' : Data}
    (h : d.cstr_useful idx = .ok (b, d')) :
    d'.pos = d.pos ∧ d'.neg = d.neg ∧ d'.staged = d.staged := by
  unfold Data.cstr_useful at h
  cases hsim : d.similarIds idx with
  | none =>
    rw [hsim] at h
    cases h
  | some sim =>
    rw [hsim] at h
    simp only [bind, Except.bind] at h
    obtain ⟨hpos, hneg, hst, _⟩ :=
      usefulLoop_spec (l := (sim.filter (fun j => j ≠ idx)).dedup)
        (List.nodup_dedup _)
        (fun j hj => by simpa using (List.mem_filter.mp (List.mem_dedup.mp hj)).2)
        h
    exact ⟨hpos, hneg, hst⟩

end Data

/-- Live negative constraint `P(3) ⇒ ⊥` used in the C1 counterexample. -/
def c1neg : Constraint := ⟨some [(0, [[Val.I 3]])], none⟩

/-- Live normal constraint `P(3) ⇒ Q(7)` used in the C1 counterexample. -/
def c1norm : Constraint := ⟨some [(0, [[Val.I 3]])], some ⟨1, [Val.I 7]⟩⟩

/-- A store holding both constraints with an exact inverse map; the
negative constraint implies the normal one (they share the lhs sample
`(P, (3))`), so constraint 1 is useless. -/
def c1data : Data :=
  { Data.new ⟨false, false⟩ 2 with
    constraints := [c1neg, c1norm]
    map := [[([Val.I 3], [0, 1])], [([Val.I 7], [1])]]
    cstr_info := ⟨[], [0]⟩ }

/-- **C1, counterexample.**  The claim says `cstr_useful(c)` examines every
live constraint sharing an Lhs-or-Rhs sample with `c` and returns `false`
when `c` is strictly below one of them.  In `c1data`, constraint 1
(`P(3) ⇒ Q(7)`) shares the Lhs sample `(P,(3))` with the live negative
constraint 0 (`P(3) ⇒ ⊥`) and is strictly below it in the constraint
order, yet `cstr_useful 1` returns `true` and leaves the store unchanged:
the code (`src/data/mod.rs` lines 205-217) only examines the constraints
registered for the Rhs sample of `c`, and `(Q,(7))` is mentioned by no
other constraint.  The two comparable constraints both stay live,
violating invariant I5. -/
theorem C1_counterexample :
    (c1data.constraints.getD 0 cdefault).is_tautology = false ∧
    (c1data.constraints.getD 1 cdefault).is_tautology = false ∧
    (0, ([Val.I 3] : Args)) ∈
      Constraint.lhsSamples
        ((c1data.constraints.getD 0 cdefault).lhs.getD []) ∧
    (0, ([Val.I 3] : Args)) ∈
      Constraint.lhsSamples
        ((c1data.constraints.getD 1 cdefault).lhs.getD []) ∧
    Constraint.compare (c1data.constraints.getD 1 cdefault)
      (c1data.constraints.getD 0 cdefault) = some Ordering.lt ∧
    Data.cstr_useful c1data 1 = .ok (true, c1data) := by
  decide

/-- **C1, amended.**  `cstr_useful(c)` examines exactly the live
constraints registered in the inverse map for the Rhs sample of `c` (all
negative constraints when `c` has no Rhs) — constraints sharing only an
Lhs sample are not examined.  Among the examined constraints `c'`: if
`c ⪰ c'`, then `c'` is tautologized; the result is `false` (useless) iff
some examined `c'` satisfies `c ≺ c'`; incomparable ones are untouched;
and `c` itself is untouched, so on return `c` is incomparable with every
examined constraint that remains live — but I5 is not guaranteed against
unexamined constraints. -/
theorem C1_cstr_useful (d : Data) (idx : Nat) (sim : List Nat) (b : Bool)
    (d' : Data) (hsim : d.similarIds idx = some sim)
    (h : d.cstr_useful idx = .ok (b, d')) :
    d'.constraints.getD idx cdefault = d.constraints.getD idx cdefault ∧
    (b = false ↔ ∃ j ∈ d.examinedIds idx,
      Constraint.compare (d.constraints.getD idx cdefault)
        (d.constraints.getD j cdefault) = some Ordering.lt) ∧
    (∀ j ∈ d.examinedIds idx,
      (Constraint.compare (d.constraints.getD idx cdefault)
          (d.constraints.getD j cdefault) = some Ordering.eq ∨
        Constraint.compare (d.constraints.getD idx cdefault)
          (d.constraints.getD j cdefault) = some Ordering.gt) →
      (d'.constraints.getD j cdefault).is_tautology = true) ∧
    (∀ j ∈ d.examinedIds idx,
      Constraint.compare (d.constraints.getD idx cdefault)
          (d.constraints.getD j cdefault) = none →
      d'.constraints.getD j cdefault = d.constraints.getD j cdefault) ∧
    (∀ k, k ∉ d.examinedIds idx →
      d'.constraints.getD k cdefault = d.constraints.getD k cdefault) := by
  rw [Data.cstr_useful_eq_loop hsim] at h
  obtain ⟨hpos, hneg, hst, hfr, hb, htau, hunt⟩ :=
    usefulLoop_spec (d.examinedIds_nodup idx) (d.examinedIds_ne idx) h
  have hidx : idx ∉ d.examinedIds idx := fun hmem =>
    (d.examinedIds_ne idx idx hmem) rfl
  refine ⟨hfr idx hidx, ?_, htau, hunt, hfr⟩
  constructor
  · intro hbf
    by_contra hno
    push_neg at hno
    have : b = true := hb.mpr ⟨rfl, fun j hj hcmp => hno j hj hcmp⟩
    rw [this] at hbf
    cases hbf
  · rintro ⟨j, hj, hcmp⟩
    by_contra hbt
    have hbt' : b = true := by
      cases b with
      | true => rfl
      | false => exact absurd rfl hbt
    exact (hb.mp hbt').2 j hj hcmp

/-! ## The propagation loop: equations and invariants -/

namespace Data

theorem propagateLoop_pop_none {fuel : Nat} {d : Data} {pc nc : Nat}
    (hp : d.staged.pop = none) :
    Data.propagateLoop fuel d pc nc =
      .ok ((pc, nc), d.shrink_constraints) := by
  unfold Data.propagateLoop
  rw [hp]

theorem propagateLoop_pop_zero {d : Data} {pc nc : Nat}
    {pred : Nat} {argss : List Args} {pol : Bool} {st' : Staged}
    (hp : d.staged.pop = some (pred, argss, pol, st')) :
    Data.propagateLoop 0 d pc nc = .error Err.fuel := by
  unfold Data.propagateLoop
  rw [hp]

theorem propagateLoop_pop_succ {fuel : Nat} {d : Data} {pc nc : Nat}
    {pred : Nat} {argss : List Args} {pol : Bool} {st' : Staged}
    (hp : d.staged.pop = some (pred, argss, pol, st')) :
    Data.propagateLoop (fuel + 1) d pc nc =
      (if (filterStep argss (target { d with staged := st' } pred pol)).1.isEmpty
        then
          Data.propagateLoop fuel
            (setTarget { d with staged := st' } pred pol
              (filterStep argss
                (target { d with staged := st' } pred pol)).2) pc nc
        else
          match (filterStep argss
              (target { d with staged := st' } pred pol)).1.foldlM
              (handleOne pred pol)
              (setTarget { d with staged := st' } pred pol
                (filterStep argss
                  (target { d with staged := st' } pred pol)).2) with
          | .error e => .error e
          | .ok d3 =>
            Data.propagateLoop fuel d3
              (if pol then pc +
                (filterStep argss
                  (target { d with staged := st' } pred pol)).1.length
                else pc)
              (if pol then nc
                else nc +
                  (filterStep argss
                    (target { d with staged := st' } pred pol)).1.length)) := by
  conv_lhs => rw [Data.propagateLoop]
  rw [hp]

/-- Any successful run of the propagation loop ends with an empty staging
queue and a shrink-stable store. -/
theorem propagateLoop_ok {fuel : Nat} {d : Data} {pc nc : Nat}
    {r : Nat × Nat} {d' : Data}
    (h : Data.propagateLoop fuel d pc nc = .ok (r, d')) :
    d'.staged = ⟨[], []⟩ ∧ d'.shrink_constraints = d' := by
  induction fuel generalizing d pc nc with
  | zero =>
    cases hp : d.staged.pop with
    | none =>
      rw [propagateLoop_pop_none hp] at h
      simp only [Except.ok.injEq, Prod.mk.injEq] at h
      obtain ⟨-, rfl⟩ := h
      have hstg : d.staged = ⟨[], []⟩ := by
        obtain ⟨h1, h2⟩ := (Staged.pop_none_iff d.staged).mp hp
        cases hs : d.staged
        rw [hs] at h1 h2
        simp only at h1 h2
        rw [h1, h2]
      exact ⟨by rw [Data.shrink_staged, hstg], Data.shrink_idem d⟩
    | some x =>
      obtain ⟨pred, argss, pol, st'⟩ := x
      rw [propagateLoop_pop_zero hp] at h
      cases h
  | succ fuel ih =>
    cases hp : d.staged.pop with
    | none =>
      rw [propagateLoop_pop_none hp] at h
      simp only [Except.ok.injEq, Prod.mk.injEq] at h
      obtain ⟨-, rfl⟩ := h
      have hstg : d.staged = ⟨[], []⟩ := by
        obtain ⟨h1, h2⟩ := (Staged.pop_none_iff d.staged).mp hp
        cases hs : d.staged
        rw [hs] at h1 h2
        simp only at h1 h2
        rw [h1, h2]
      exact ⟨by rw [Data.shrink_staged, hstg], Data.shrink_idem d⟩
    | some x =>
      obtain ⟨pred, argss, pol, st'⟩ := x
      rw [propagateLoop_pop_succ hp] at h
      by_cases hk : (filterStep argss
          (target { d with staged := st' } pred pol)).1.isEmpty = true
      · rw [if_pos hk] at h
        exact ih h
      · rw [if_neg hk] at h
        cases hf : (filterStep argss
            (target { d with staged := st' } pred pol)).1.foldlM
            (handleOne pred pol)
            (setTarget { d with staged := st' } pred pol
              (filterStep argss
                (target { d with staged := st' } pred pol)).2) with
        | error e => rw [hf] at h; cases h
        | ok d3 =>
          rw [hf] at h
          exact ih h

/-- `propagate` on an empty staging queue returns `(0, 0)` and only shrinks
the constraints. -/
theorem propagate_of_pop_none {fuel : Nat} {d : Data}
    (hp : d.staged.pop = none) :
    Data.propagate fuel d = .ok ((0, 0), d.shrink_constraints) :=
  propagateLoop_pop_none hp

end Data

/-! ## Claim C5: idempotence of `propagate` -/

/-- **C5.**  A successful `propagate` call drains the staging queue to a
fixed point; an immediately following `propagate` (with any fuel) returns
`(0, 0)` and leaves the store — `pos`, `neg`, `constraints`, the inverse
`map`, and everything else — unchanged. -/
theorem C5_propagate_idempotent (fuel : Nat) (d : Data) (r : Nat × Nat)
    (d' : Data) (h : Data.propagate fuel d = .ok (r, d')) :
    d'.staged = ⟨[], []⟩ ∧
    ∀ fuel', Data.propagate fuel' d' = .ok ((0, 0), d') := by
  obtain ⟨hstg, hshr⟩ := Data.propagateLoop_ok h
  refine ⟨hstg, fun fuel' => ?_⟩
  have hp : d'.staged.pop = none := by rw [hstg]; rfl
  rw [Data.propagate_of_pop_none hp, hshr]

/-- The store reached by propagating one positive sample into a fresh
store (for the C5 witness). -/
def c5data : Data := (Data.new ⟨false, false⟩ 1).add_raw_pos 0 0 [Val.I 3]

def c5res : Data :=
  { Data.new ⟨false, false⟩ 1 with
    pos := [[[Val.I 3]]], factory := [[Val.I 3]] }

/-- **C5, witness.** -/
theorem C5_witness : Data.propagate 3 c5res = .ok ((0, 0), c5res) :=
  (C5_propagate_idempotent 5 c5data (1, 0) c5res (by decide)).2 3

/-! ## Frame lemmas for the engine operations -/

namespace Data

theorem remove_subs_pn (d : Data) (pred : Nat) (args : Args) :
    (d.remove_subs pred args).2.pos = d.pos ∧
    (d.remove_subs pred args).2.neg = d.neg ∧
    (d.remove_subs pred args).2.staged = d.staged := by
  unfold Data.remove_subs
  split
  · split
    · exact ⟨rfl, rfl, rfl⟩
    · exact ⟨rfl, rfl, rfl⟩
  · exact ⟨rfl, rfl, rfl⟩

theorem stageTrivial_pn (d : Data) (cidx : Nat) (s : Sample) (pol' : Bool)
    (c' : Constraint) :
    (d.stageTrivial cidx s pol' c').pos = d.pos ∧
    (d.stageTrivial cidx s pol' c').neg = d.neg := by
  unfold Data.stageTrivial
  exact ⟨rfl, rfl⟩

theorem forceOne_pn {pred : Nat} {args : Args} {pol : Bool}
    {acc : Data × List Nat} {cidx : Nat} {out : Data × List Nat}
    (h : Data.forceOne pred args pol acc cidx = .ok out) :
    out.1.pos = acc.1.pos ∧ out.1.neg = acc.1.neg := by
  unfold Data.forceOne at h
  obtain ⟨r, h1, h⟩ := bind_ok h
  split at h
  · simp only [Except.ok.injEq] at h
    rw [← h]
    exact ⟨rfl, rfl⟩
  · split at h
    · simp only [Except.ok.injEq] at h
      rw [← h]
      exact stageTrivial_pn _ _ _ _ _
    · simp only [Except.ok.injEq] at h
      rw [← h]
      exact ⟨rfl, rfl⟩
    · cases h

theorem moddedPass_pns {d : Data} {modded : List Nat} {d' : Data}
    (h : Data.moddedPass d modded = .ok d') :
    d'.pos = d.pos ∧ d'.neg = d.neg ∧ d'.staged = d.staged := by
  refine foldlM_rel
    (fun (a b : Data) => b.pos = a.pos ∧ b.neg = a.neg ∧ b.staged = a.staged)
    (fun g => ⟨rfl, rfl, rfl⟩)
    (fun a b c hab hbc =>
      ⟨hbc.1.trans hab.1, hbc.2.1.trans hab.2.1, hbc.2.2.trans hab.2.2⟩)
    ?_ h
  intro g x g' hx hstep
  split at hstep
  · simp only [Except.ok.injEq] at hstep
    rw [← hstep]
    exact ⟨rfl, rfl, rfl⟩
  · obtain ⟨⟨useful, g1⟩, h1, h2⟩ := bind_ok hstep
    have hf := cstr_useful_frames h1
    split at h2
    · simp only [Except.ok.injEq] at h2
      rw [← h2]
      exact hf
    · obtain ⟨hp, hn, hs, -, -⟩ := tautologize_frame h2
      exact ⟨hp.trans hf.1, hn.trans hf.2.1, hs.trans hf.2.2⟩

theorem forceFold_pn {pred : Nat} {args : Args} {pol : Bool}
    {cstrs : List Nat} {init out : Data × List Nat}
    (h : cstrs.foldlM (Data.forceOne pred args pol) init = .ok out) :
    out.1.pos = init.1.pos ∧ out.1.neg = init.1.neg :=
  foldlM_rel
    (fun (a b : Data × List Nat) => b.1.pos = a.1.pos ∧ b.1.neg = a.1.neg)
    (fun _ => ⟨rfl, rfl⟩)
    (fun _ _ _ hab hbc => ⟨hbc.1.trans hab.1, hbc.2.trans hab.2⟩)
    (fun _ _ _ _ hstep => forceOne_pn hstep) h

theorem handleOne_pn {pred : Nat} {pol : Bool} {d : Data} {args : Args}
    {d' : Data} (h : Data.handleOne pred pol d args = .ok d') :
    d'.pos = d.pos ∧ d'.neg = d.neg := by
  have hrs := d.remove_subs_pn pred args
  unfold Data.handleOne at h
  split at h
  · rename_i d1 heq
    rw [heq] at hrs
    simp only [Except.ok.injEq] at h
    rw [← h]
    exact ⟨hrs.1, hrs.2.1⟩
  · rename_i cstrs d1 heq
    rw [heq] at hrs
    obtain ⟨⟨d2, m2⟩, hfold, hmp⟩ := bind_ok h
    have h2 : d2.pos = d1.pos ∧ d2.neg = d1.neg := forceFold_pn hfold
    obtain ⟨hp3, hn3, -⟩ := moddedPass_pns hmp
    exact ⟨(hp3.trans h2.1).trans hrs.1, (hn3.trans h2.2).trans hrs.2.1⟩

theorem raw_add_cstr_frames {d : Data} {c : Constraint} {b : Bool} {d' : Data}
    (h : d.raw_add_cstr c = .ok (b, d')) :
    d'.pos = d.pos ∧ d'.neg = d.neg ∧ d'.staged = d.staged := by
  unfold Data.raw_add_cstr at h
  obtain ⟨⟨useful, d1⟩, h1, h2⟩ := bind_ok h
  have hf := cstr_useful_frames h1
  split at h2
  · simp only [Except.ok.injEq, Prod.mk.injEq] at h2
    obtain ⟨-, rfl⟩ := h2
    exact hf
  · obtain ⟨d2, htt, h3⟩ := bind_ok h2
    obtain ⟨hp, hn, hs, -, -⟩ := tautologize_frame htt
    simp only [Except.ok.injEq, Prod.mk.injEq] at h3
    obtain ⟨-, rfl⟩ := h3
    exact ⟨hp.trans hf.1, hn.trans hf.2.1, hs.trans hf.2.2⟩


/-- The pre-checks of `add_cstr` only touch the hashcons factory. -/
theorem precheckLhs_frames (d : Data) (atoms : List (Nat × Args))
    (nu : List (Nat × List Args)) :
    (d.precheckLhs atoms nu).1.cfg = d.cfg ∧
    (d.precheckLhs atoms nu).1.predCount = d.predCount ∧
    (d.precheckLhs atoms nu).1.pos = d.pos ∧
    (d.precheckLhs atoms nu).1.neg = d.neg ∧
    (d.precheckLhs atoms nu).1.constraints = d.constraints ∧
    (d.precheckLhs atoms nu).1.map = d.map ∧
    (d.precheckLhs atoms nu).1.staged = d.staged ∧
    (d.precheckLhs atoms nu).1.graph = d.graph := by
  induction atoms generalizing d nu with
  | nil => exact ⟨rfl, rfl, rfl, rfl, rfl, rfl, rfl, rfl⟩
  | cons pa rest ih =>
    obtain ⟨p, a⟩ := pa
    unfold Data.precheckLhs
    split
    · split
      · exact ih _ _
      · split
        · exact ⟨rfl, rfl, rfl, rfl, rfl, rfl, rfl, rfl⟩
        · exact ih _ _
    · exact ih _ _

theorem precheckRhs_frames (d : Data) (nu : List (Nat × List Args))
    (rhs : Option (Nat × Args)) :
    (d.precheckRhs nu rhs).1.cfg = d.cfg ∧
    (d.precheckRhs nu rhs).1.predCount = d.predCount ∧
    (d.precheckRhs nu rhs).1.pos = d.pos ∧
    (d.precheckRhs nu rhs).1.neg = d.neg ∧
    (d.precheckRhs nu rhs).1.constraints = d.constraints ∧
    (d.precheckRhs nu rhs).1.map = d.map ∧
    (d.precheckRhs nu rhs).1.staged = d.staged ∧
    (d.precheckRhs nu rhs).1.graph = d.graph := by
  unfold Data.precheckRhs
  split
  · exact ⟨rfl, rfl, rfl, rfl, rfl, rfl, rfl, rfl⟩
  · split
    · split
      · exact ⟨rfl, rfl, rfl, rfl, rfl, rfl, rfl, rfl⟩
      · split
        · exact ⟨rfl, rfl, rfl, rfl, rfl, rfl, rfl, rfl⟩
        · split
          · exact ⟨rfl, rfl, rfl, rfl, rfl, rfl, rfl, rfl⟩
          · exact ⟨rfl, rfl, rfl, rfl, rfl, rfl, rfl, rfl⟩
    · split
      · exact ⟨rfl, rfl, rfl, rfl, rfl, rfl, rfl, rfl⟩
      · exact ⟨rfl, rfl, rfl, rfl, rfl, rfl, rfl, rfl⟩

end Data

namespace Data

theorem graphRecord_staged (d : Data) (clause : Nat)
    (rhs : Option (Nat × Args)) :
    (d.graphRecord clause rhs).staged = d.staged := by
  unfold Data.graphRecord
  split
  · split
    · rfl
    · rfl
  · rfl

theorem graphRecord_pos (d : Data) (clause : Nat)
    (rhs : Option (Nat × Args)) :
    (d.graphRecord clause rhs).pos = d.pos := by
  unfold Data.graphRecord
  split
  · split
    · rfl
    · rfl
  · rfl

theorem graphRecord_neg (d : Data) (clause : Nat)
    (rhs : Option (Nat × Args)) :
    (d.graphRecord clause rhs).neg = d.neg := by
  unfold Data.graphRecord
  split
  · split
    · rfl
    · rfl
  · rfl

theorem graphRecord_map (d : Data) (clause : Nat)
    (rhs : Option (Nat × Args)) :
    (d.graphRecord clause rhs).map = d.map := by
  unfold Data.graphRecord
  split
  · split
    · rfl
    · rfl
  · rfl

end Data

theorem addCstrUnsat_not_ok {fuel : Nat} {d : Data} {r : Bool × Data} :
    ¬ Data.addCstrUnsat fuel d = .ok r := by
  intro h
  unfold Data.addCstrUnsat at h
  obtain ⟨r1, h1, h⟩ := bind_ok h
  cases h

/-- The staging effect of the tail of `add_cstr`, given an empty staging
queue on entry. -/
theorem addCstrFinish_staged {fuel : Nat} {d : Data} {lhs : List (Nat × Args)}
    {rhs : Option (Nat × Args)} {c : Constraint} {b : Bool} {d' : Data}
    (h : Data.addCstrFinish fuel d lhs rhs c = .ok (b, d'))
    (hstg : d.staged = ⟨[], []⟩) :
    d'.staged.is_empty = true ∨
    ∃ p a pol, d'.staged = (Staged.with_capacity.add p a pol).2 := by
  unfold Data.addCstrFinish at h
  split at h
  · rename_i s pol c2 heq
    simp only [Except.ok.injEq, Prod.mk.injEq] at h
    obtain ⟨-, rfl⟩ := h
    right
    refine ⟨s.pred, s.args, pol, ?_⟩
    show (d.staged.add s.pred s.args pol).2 = _
    rw [hstg]
    rfl
  · obtain ⟨-, -, hs⟩ := Data.raw_add_cstr_frames h
    left
    rw [hs, hstg]
    rfl
  · split at h
    · exact absurd h addCstrUnsat_not_ok
    · split at h
      · exact absurd h addCstrUnsat_not_ok
      · cases h

/-! ## Propagation over an empty inverse map (for the `add_cstr` UNSAT path) -/

theorem ok_bind {α β : Type} (a : α) (f : α → Res β) :
    (Except.ok a >>= f) = f a := rfl

/-- Number of per-predicate entries in the staging queue. -/
def stagedCount (s : Staged) : Nat := s.pos.length + s.neg.length

theorem Staged.pop_count {s : Staged} {pred : Nat} {argss : List Args}
    {pol : Bool} {st' : Staged}
    (hp : s.pop = some (pred, argss, pol, st')) :
    stagedCount st' + 1 = stagedCount s := by
  obtain ⟨sp, sn⟩ := s
  cases sp with
  | cons e rest =>
    simp only [Staged.pop, Option.some_inj] at hp
    obtain ⟨-, -, -, rfl⟩ := hp
    simp [stagedCount]
    omega
  | nil =>
    cases sn with
    | nil => simp [Staged.pop] at hp
    | cons e rest =>
      simp only [Staged.pop, Option.some_inj] at hp
      obtain ⟨-, -, -, rfl⟩ := hp
      simp [stagedCount]

namespace Data

theorem setTarget_map (d : Data) (pred : Nat) (pol : Bool) (s : List Args) :
    (d.setTarget pred pol s).map = d.map := by
  unfold Data.setTarget
  split
  · rfl
  · rfl

theorem setTarget_staged (d : Data) (pred : Nat) (pol : Bool) (s : List Args) :
    (d.setTarget pred pol s).staged = d.staged := by
  unfold Data.setTarget
  split
  · rfl
  · rfl

theorem remove_subs_map_empty (d : Data) (pred : Nat) (args : Args)
    (hmap : ∀ p, mget d.map p = []) :
    (d.remove_subs pred args).1 = none ∧
    (∀ p, mget (d.remove_subs pred args).2.map p = []) ∧
    (d.remove_subs pred args).2.staged = d.staged := by
  have hset : ∀ q rest, mget (d.map.set pred rest) q = rest ∨
      mget (d.map.set pred rest) q = [] := by
    intro q rest
    by_cases hpp : q = pred
    · subst hpp
      by_cases hl : q < d.map.length
      · exact Or.inl (getD_set_lt _ _ _ _ hl)
      · exact Or.inr (getD_ge _ _ _
          (by simpa using Nat.le_of_not_lt hl))
    · exact Or.inr
        ((getD_set_ne _ _ _ _ _ (fun hh => hpp hh.symm)).trans (hmap q))
  unfold Data.remove_subs
  split
  · rw [hmap pred]
    exact ⟨rfl, hmap, rfl⟩
  · rw [hmap pred]
    exact ⟨rfl, fun p => (hset p _).elim (fun h => h) (fun h => h), rfl⟩

theorem handleOne_map_empty (pred : Nat) (pol : Bool) (d : Data) (args : Args)
    (hmap : ∀ p, mget d.map p = []) :
    ∃ d2, Data.handleOne pred pol d args = .ok d2 ∧
      d2.staged = d.staged ∧ (∀ p, mget d2.map p = []) := by
  obtain ⟨h1, h2, h3⟩ := remove_subs_map_empty d pred args hmap
  unfold Data.handleOne
  cases hrs : d.remove_subs pred args with
  | mk o d1 =>
    rw [hrs] at h1 h2 h3
    simp only at h1
    subst h1
    exact ⟨d1, rfl, h3, h2⟩

theorem foldlM_handleOne_map_empty (pred : Nat) (pol : Bool)
    (kept : List Args) (d : Data) (hmap : ∀ p, mget d.map p = []) :
    ∃ d3, kept.foldlM (Data.handleOne pred pol) d = .ok d3 ∧
      d3.staged = d.staged ∧ (∀ p, mget d3.map p = []) := by
  induction kept generalizing d with
  | nil => exact ⟨d, rfl, rfl, hmap⟩
  | cons a rest ih =>
    obtain ⟨d2, hone, hstg2, hmap2⟩ := handleOne_map_empty pred pol d a hmap
    obtain ⟨d3, hfold, hstg3, hmap3⟩ := ih d2 hmap2
    refine ⟨d3, ?_, hstg3.trans hstg2, hmap3⟩
    rw [List.foldlM_cons, hone, ok_bind, hfold]

/-- With an empty inverse map, the propagation loop always succeeds given
fuel at least the number of staged entries. -/
theorem propagateLoop_map_empty (fuel : Nat) (d : Data) (pc nc : Nat)
    (hmap : ∀ p, mget d.map p = [])
    (hfuel : stagedCount d.staged ≤ fuel) :
    ∃ r d', Data.propagateLoop fuel d pc nc = .ok (r, d') := by
  induction fuel generalizing d pc nc with
  | zero =>
    cases hp : d.staged.pop with
    | none => exact ⟨_, _, propagateLoop_pop_none hp⟩
    | some x =>
      exfalso
      obtain ⟨pred, argss, pol, st'⟩ := x
      have := Staged.pop_count hp
      omega
  | succ fuel ih =>
    cases hp : d.staged.pop with
    | none => exact ⟨_, _, propagateLoop_pop_none hp⟩
    | some x =>
      obtain ⟨pred, argss, pol, st'⟩ := x
      have hcnt := Staged.pop_count hp
      rw [propagateLoop_pop_succ hp]
      have hmap1 : ∀ p,
          mget (setTarget { d with staged := st' } pred pol
            (filterStep argss
              (target { d with staged := st' } pred pol)).2).map p = [] := by
        intro p
        rw [setTarget_map]
        exact hmap p
      have hstg1 :
          (setTarget { d with staged := st' } pred pol
            (filterStep argss
              (target { d with staged := st' } pred pol)).2).staged = st' := by
        rw [setTarget_staged]
      by_cases hk : (filterStep argss
          (target { d with staged := st' } pred pol)).1.isEmpty = true
      · rw [if_pos hk]
        exact ih _ pc nc hmap1 (by rw [hstg1]; omega)
      · rw [if_neg hk]
        obtain ⟨d3, hfold, hstg3, hmap3⟩ :=
          foldlM_handleOne_map_empty pred pol _ _ hmap1
        rw [hfold]
        exact ih d3 _ _ hmap3 (by rw [hstg3, hstg1]; omega)

/-- The pre-check of `add_cstr` when every lhs atom is subsumed by a
positive witness and partial samples are enabled: all atoms are discarded
and only the factory grows. -/
theorem precheckLhs_all_pos (atoms : List (Nat × Args)) (d : Data)
    (nu : List (Nat × List Args)) (hpart : d.cfg.partialSamples = true)
    (hpos : ∀ pa ∈ atoms, setSubsumed pa.2 (d.pos.getD pa.1 [])) :
    ∃ dF, d.precheckLhs atoms nu = (dF, some nu) ∧
      dF.cfg = d.cfg ∧ dF.pos = d.pos ∧ dF.neg = d.neg ∧ dF.map = d.map ∧
      dF.staged = d.staged ∧ dF.graph = d.graph := by
  induction atoms generalizing d nu with
  | nil => exact ⟨d, rfl, rfl, rfl, rfl, rfl, rfl, rfl⟩
  | cons pa rest ih =>
    obtain ⟨p, a⟩ := pa
    unfold Data.precheckLhs
    rw [if_pos (Or.inl hpart), if_pos (hpos (p, a) (by simp))]
    obtain ⟨dF, heq, h1, h2, h3, h4, h5, h6⟩ :=
      ih (d.intern a) nu hpart (fun pa hpa => hpos pa (by simp [hpa]))
    exact ⟨dF, heq, h1, h2, h3, h4, h5, h6⟩

theorem precheckRhs_none_eq (d : Data) (nu : List (Nat × List Args)) :
    d.precheckRhs nu none = (d, some none) := rfl

theorem precheckRhs_neg_eq (d : Data) (nu : List (Nat × List Args))
    (p : Nat) (a : Args) (hpart : d.cfg.partialSamples = true)
    (hnp : ¬ setSubsumed a (d.pos.getD p []))
    (hn : setSubsumed a (d.neg.getD p [])) :
    d.precheckRhs nu (some (p, a)) = (d.intern a, some none) := by
  simp only [Data.precheckRhs]
  rw [if_pos (Or.inl hpart), if_neg hnp, if_pos hn]

end Data

/-- Staging a sample into the empty queue yields exactly one entry. -/
theorem Staged.add_empty_count (p : Nat) (a : Args) (pol : Bool) :
    stagedCount ((Staged.mk [] []).add p a pol).2 = 1 := by
  cases pol with
  | true =>
    simp [Staged.add, alookup, setSubsumed, sInsert, aupdate, stagedCount]
  | false =>
    simp [Staged.add, alookup, setSubsumed, sInsert, aupdate, stagedCount]

/-- The UNSAT tail of `add_cstr` for the `true ⇒ ⊥` constraint, under an
empty staging queue and an empty inverse map. -/
theorem addCstrFinish_unsat (fuel : Nat) (d : Data) (lhs : List (Nat × Args))
    (rhs : Option (Nat × Args)) (hstg : d.staged = ⟨[], []⟩)
    (hmap : ∀ p, mget d.map p = []) (hfuel : 1 ≤ fuel)
    (hne : lhs ≠ [] ∨ rhs ≠ none) :
    Data.addCstrFinish fuel d lhs rhs ⟨some [], none⟩ = .error Err.unsat := by
  have htriv : Constraint.is_trivial ⟨some [], none⟩ =
      (Sum.inr true, (⟨some [], none⟩ : Constraint)) := rfl
  unfold Data.addCstrFinish
  split
  · rename_i heq
    rw [htriv] at heq
    simp at heq
  · rename_i heq
    rw [htriv] at heq
    simp at heq
  · cases hrhs : rhs with
    | some pa =>
      obtain ⟨p, a⟩ := pa
      have hmap2 : ∀ q,
          mget (((d.intern a).add_pos_untracked p a).2).map q = [] :=
        fun q => hmap q
      have hstg2 :
          (((d.intern a).add_pos_untracked p a).2).staged =
            ((Staged.mk [] []).add p a true).2 := by
        show ((d.intern a).staged.add p a true).2 = _
        have hi : (d.intern a).staged = Staged.mk [] [] := hstg
        rw [hi]
      obtain ⟨r, d', hok⟩ := Data.propagateLoop_map_empty fuel _ 0 0 hmap2
        (by rw [hstg2, Staged.add_empty_count]; exact hfuel)
      show Data.addCstrUnsat fuel (((d.intern a).add_pos_untracked p a).2) =
        .error Err.unsat
      unfold Data.addCstrUnsat Data.propagate
      rw [hok]
      rfl
    | none =>
      cases hlast : lhs.getLast? with
      | none =>
        exfalso
        rcases hne with hne | hne
        · exact hne (List.getLast?_eq_none_iff.mp hlast)
        · exact hne hrhs
      | some pa =>
        obtain ⟨p, a⟩ := pa
        have hmap2 : ∀ q,
            mget (((d.intern a).add_neg_untracked p a).2).map q = [] :=
          fun q => hmap q
        have hstg2 :
            (((d.intern a).add_neg_untracked p a).2).staged =
              ((Staged.mk [] []).add p a false).2 := by
          show ((d.intern a).staged.add p a false).2 = _
          have hi : (d.intern a).staged = Staged.mk [] [] := hstg
          rw [hi]
        obtain ⟨r, d', hok⟩ := Data.propagateLoop_map_empty fuel _ 0 0 hmap2
          (by rw [hstg2, Staged.add_empty_count]; exact hfuel)
        show Data.addCstrUnsat fuel (((d.intern a).add_neg_untracked p a).2) =
          .error Err.unsat
        unfold Data.addCstrUnsat Data.propagate
        rw [hok]
        rfl

/-! ## Claim C2: `Staged` is empty after external operations -/

/-- The store produced by the C2 counterexample call. -/
def c2res : Data :=
  { Data.new ⟨false, false⟩ 1 with
    staged := ⟨[], [(0, [[Val.I 3]])]⟩
    factory := [[Val.I 3]] }

/-- **C2, counterexample.**  The claim says every external operation —
in particular `add_cstr`, even when the constructed constraint degenerates
to a single sample — leaves `Staged` empty.  Adding the constraint
`P(3) ⇒ ⊥` to a fresh store takes the single-sample branch of `add_cstr`
(`src/data/mod.rs` lines 852-856), which stages the sample and returns
`Ok` without propagating: the staging queue is non-empty on return. -/
theorem C2_counterexample :
    Data.add_cstr 9 (Data.new ⟨false, false⟩ 1) 0 [(0, [Val.I 3])] none =
      .ok (true, c2res) ∧
    c2res.staged.is_empty = false := by
  decide

/-- **C2, amended.**  `Staged` is empty when `propagate`, `force_pred`,
`merge_samples` or `clone_new_constraints` (given it was empty on entry)
returns normally, and the store seeded by `clone_new_constraints` has an
empty staging queue; `add_cstr`, however, either leaves `Staged` empty or —
exactly when the constructed constraint degenerates to a single sample —
leaves that single staged sample behind. -/
theorem C2_staged_empty :
    (∀ fuel (d : Data) r d', Data.propagate fuel d = .ok (r, d') →
      d'.staged.is_empty = true) ∧
    (∀ fuel (d : Data) p pol d', Data.force_pred fuel d p pol = .ok d' →
      d'.staged.is_empty = true) ∧
    (∀ fuel (d other : Data) r d',
      Data.merge_samples fuel d other = .ok (r, d') →
      d'.staged.is_empty = true) ∧
    (∀ (d : Data) res d', Data.clone_new_constraints d = .ok (res, d') →
      (d.staged.is_empty = true → d'.staged.is_empty = true) ∧
      ∀ nd, res = some nd → nd.staged.is_empty = true) ∧
    (∀ fuel (d : Data) clause lhs rhs b d',
      Data.add_cstr fuel d clause lhs rhs = .ok (b, d') →
      d'.staged.is_empty = true ∨
      ∃ p a pol, d'.staged = (Staged.with_capacity.add p a pol).2) := by
  have hstg_empty : ∀ {x : Data} {r : (Nat × Nat) × Data} {fuel : Nat},
      Data.propagate fuel x = .ok r → r.2.staged.is_empty = true := by
    intro x r fuel hr
    obtain ⟨hs, -⟩ := Data.propagateLoop_ok hr
    rw [hs]
    rfl
  refine ⟨?_, ?_, ?_, ?_, ?_⟩
  · intro fuel d r d' h
    exact hstg_empty h
  · intro fuel d p pol d' h
    unfold Data.force_pred at h
    obtain ⟨fr, h1, h⟩ := bind_ok h
    obtain ⟨d2, h2, h⟩ := bind_ok h
    obtain ⟨rp, h3, h⟩ := bind_ok h
    simp only [Except.ok.injEq] at h
    rw [← h]
    exact hstg_empty h3
  · intro fuel d other r d' h
    unfold Data.merge_samples at h
    split at h
    · exact hstg_empty h
    · cases h
    · exact hstg_empty h
  · intro d res d' h
    unfold Data.clone_new_constraints at h
    obtain ⟨resv, hfold, h⟩ := bind_ok h
    simp only [Except.ok.injEq, Prod.mk.injEq] at h
    obtain ⟨rfl, rfl⟩ := h
    constructor
    · intro hse
      exact hse
    · intro nd hnd
      have key := foldlM_rel
        (fun (a b : Option Data) =>
          (∀ x, a = some x → x.staged.is_empty = true) →
          (∀ x, b = some x → x.staged.is_empty = true))
        (fun _ hp => hp)
        (fun _ _ _ hab hbc hp => hbc (hab hp))
        ?_ hfold
      · exact key (fun x hx => by cases hx) nd hnd
      · intro g x g' hx hstep hp
        intro y hy
        split at hstep
        · simp only [Except.ok.injEq] at hstep
          rw [← hstep] at hy
          exact hp y hy
        · obtain ⟨r1, hraw, hstep⟩ := bind_ok hstep
          simp only [Except.ok.injEq] at hstep
          rw [← hstep] at hy
          cases hy
          obtain ⟨-, -, hs⟩ := Data.raw_add_cstr_frames hraw
          rw [hs]
          cases hg : g with
          | none => rfl
          | some g0 =>
            simp only [Option.getD_some]
            exact hp g0 hg
  · intro fuel d clause lhs rhs b d' h
    unfold Data.add_cstr at h
    obtain ⟨r0, h0, h⟩ := bind_ok h
    obtain ⟨hstg0, -⟩ := Data.propagateLoop_ok h0
    split at h
    · rename_i d2 heq
      have hfr := (Data.precheckLhs_frames r0.2 lhs []).2.2.2.2.2.2.1
      rw [heq] at hfr
      simp only [Except.ok.injEq, Prod.mk.injEq] at h
      obtain ⟨-, rfl⟩ := h
      left
      rw [hfr, hstg0]
      rfl
    · rename_i d2 nuLhs heq
      have hfr := (Data.precheckLhs_frames r0.2 lhs []).2.2.2.2.2.2.1
      rw [heq] at hfr
      have hstg2 : d2.staged = ⟨[], []⟩ := by rw [hfr, hstg0]
      split at h
      · rename_i d3 heq2
        have hfr2 := (Data.precheckRhs_frames d2 nuLhs rhs).2.2.2.2.2.2.1
        rw [heq2] at hfr2
        simp only [Except.ok.injEq, Prod.mk.injEq] at h
        obtain ⟨-, rfl⟩ := h
        left
        rw [hfr2, hstg2]
        rfl
      · rename_i d3 nuRhs heq2
        have hfr2 := (Data.precheckRhs_frames d2 nuLhs rhs).2.2.2.2.2.2.1
        rw [heq2] at hfr2
        have hstg3 : d3.staged = ⟨[], []⟩ := by rw [hfr2, hstg2]
        have hstg4 : (d3.graphRecord clause rhs).staged = ⟨[], []⟩ := by
          rw [Data.graphRecord_staged, hstg3]
        exact addCstrFinish_staged h hstg4

/-- **C2, witness.** -/
theorem C2_witness :
    c2res.staged.is_empty = true ∨
    ∃ p a pol, c2res.staged = (Staged.with_capacity.add p a pol).2 :=
  C2_staged_empty.2.2.2.2 9 (Data.new ⟨false, false⟩ 1) 0
    [(0, [Val.I 3])] none true c2res (by decide)

/-! ## Claim C6: `add_cstr` on a `true ⇒ ⊥` constraint -/

/-- **C6, counterexample.**  A call to `add_cstr` whose constructed
constraint degenerates to `true ⇒ ⊥` with *both* the raw lhs and the raw
rhs empty does not surface the dedicated Unsat error: the code has no
constituent sample to stage and bails with a generic error instead
(lines 884-890). -/
theorem C6_counterexample :
    Data.add_cstr 9 (Data.new ⟨false, false⟩ 1) 0 [] none =
      .error Err.trueFalseRequest ∧
    Err.trueFalseRequest ≠ Err.unsat := by
  decide

/-- **C6.**  [amended: the raw constraint must have a constituent sample]
When the constructed constraint degenerates to `true ⇒ ⊥` — partial
samples enabled, every raw lhs atom subsumed by a positive witness, and
the raw rhs either absent or subsumed by a negative witness (and by no
positive one) — and the constraint has at least one raw constituent,
`add_cstr` stages a constituent sample with the contradictory polarity,
propagates, and returns the dedicated Unsat error kind.  (The store is
assumed propagated: staging queue empty, constraints shrink-stable; the
inverse map is empty so the final propagation terminates on any positive
fuel.) -/
theorem C6_add_cstr_unsat (fuel : Nat) (d : Data) (clause : Nat)
    (lhs : List (Nat × Args)) (rhs : Option (Nat × Args))
    (hpart : d.cfg.partialSamples = true)
    (hstg : d.staged = ⟨[], []⟩)
    (hshr : d.shrink_constraints = d)
    (hmap : ∀ p, mget d.map p = [])
    (hfuel : 1 ≤ fuel)
    (hlhs : ∀ pa ∈ lhs, setSubsumed pa.2 (d.pos.getD pa.1 []))
    (hrhs : ∀ p a, rhs = some (p, a) →
      ¬ setSubsumed a (d.pos.getD p []) ∧ setSubsumed a (d.neg.getD p []))
    (hne : lhs ≠ [] ∨ rhs ≠ none) :
    Data.add_cstr fuel d clause lhs rhs = .error Err.unsat := by
  have hp : d.staged.pop = none := by rw [hstg]; rfl
  obtain ⟨dF, hL, hc1, hc2, hc3, hc4, hc5, hc6⟩ :=
    Data.precheckLhs_all_pos lhs d [] hpart hlhs
  unfold Data.add_cstr
  rw [Data.propagate_of_pop_none hp, hshr]
  simp only [ok_bind, hL]
  cases hcr : rhs with
  | none =>
    simp only [Data.precheckRhs_none_eq]
    have hlne : lhs ≠ [] := by
      rcases hne with h | h
      · exact h
      · exact absurd hcr h
    apply addCstrFinish_unsat
    · rw [Data.graphRecord_staged, hc5, hstg]
    · intro q
      rw [Data.graphRecord_map, hc4]
      exact hmap q
    · exact hfuel
    · exact Or.inl hlne
  | some pa =>
    obtain ⟨p, a⟩ := pa
    obtain ⟨hnp, hn⟩ := hrhs p a hcr
    have hnpF : ¬ setSubsumed a (dF.pos.getD p []) := by rw [hc2]; exact hnp
    have hnF : setSubsumed a (dF.neg.getD p []) := by rw [hc3]; exact hn
    have hpartF : dF.cfg.partialSamples = true := by rw [hc1]; exact hpart
    simp only [Data.precheckRhs_neg_eq dF [] p a hpartF hnpF hnF]
    apply addCstrFinish_unsat
    · rw [Data.graphRecord_staged]
      show dF.staged = _
      rw [hc5, hstg]
    · intro q
      rw [Data.graphRecord_map]
      show mget dF.map q = []
      rw [hc4]
      exact hmap q
    · exact hfuel
    · exact Or.inr (by simp)

/-- The store of the C6 witness: one predicate, a positive witness `(3)`
and a negative witness `(4)`, partial samples enabled. -/
def c6data : Data :=
  { Data.new ⟨true, false⟩ 1 with
    pos := [[[Val.I 3]]], neg := [[[Val.I 4]]], factory := [] }

/-- **C6, witness.**  Requesting the constraint `P(3) ⇒ P(4)` over the
`c6data` witnesses degenerates to `true ⇒ ⊥` and surfaces Unsat. -/
theorem C6_witness :
    c6data.cfg.partialSamples = true ∧
    Data.add_cstr 9 c6data 0 [(0, [Val.I 3])] (some (0, [Val.I 4])) =
      .error Err.unsat :=
  ⟨by decide,
    C6_add_cstr_unsat 9 c6data 0 [(0, [Val.I 3])] (some (0, [Val.I 4]))
      (by decide) (by decide) (by decide)
      (fun p => by cases p with | zero => rfl | succ n => rfl)
      (by decide) (by decide)
      (fun p a h => by
        simp at h
        obtain ⟨rfl, rfl⟩ := h
        exact ⟨by decide, by decide⟩)
      (Or.inr (by decide))⟩

/-! ## Claim C3: the antichain invariant I1 -/

/-- An antichain under the subsumption order: no element subsumes another
distinct element. -/
def AC (s : List Args) : Prop :=
  ∀ a ∈ s, ∀ b ∈ s, subsumes a b = true → a = b

instance (s : List Args) : Decidable (AC s) := by
  unfold AC
  infer_instance

/-- Invariant I1: every per-predicate positive and negative sample set is
an antichain under subsumption. -/
def DataAC (d : Data) : Prop :=
  (∀ s ∈ d.pos, AC s) ∧ (∀ s ∈ d.neg, AC s)

instance (d : Data) : Decidable (DataAC d) := by
  unfold DataAC
  infer_instance

theorem AC_nil : AC [] := by
  intro a ha
  cases ha

theorem mem_sInsert {α : Type} [DecidableEq α] (x a : α) (l : List α) :
    x ∈ sInsert a l ↔ x = a ∨ x ∈ l := by
  unfold sInsert
  split
  · rename_i hmem
    constructor
    · exact fun h => Or.inr h
    · rintro (rfl | h)
      · exact hmem
      · exact h
  · exact List.mem_cons

/-- The insertion discipline shared by `Staged::add` and the `propagate`
filter: dropping the dominated elements before inserting a non-dominated
sample preserves the antichain property. -/
theorem AC_insert_step (a : Args) (tgt : List Args) (hAC : AC tgt)
    (hns : ¬ setSubsumed a tgt) :
    AC (sInsert a (tgt.filter (fun m => ¬ subsumes a m))) := by
  have hmf : ∀ z, z ∈ tgt.filter (fun m => ¬ subsumes a m) →
      z ∈ tgt ∧ ¬ subsumes a z = true := by
    intro z hz
    simpa using hz
  intro x hx y hy hsub
  rw [mem_sInsert] at hx hy
  rcases hx with rfl | hx
  · rcases hy with rfl | hy
    · rfl
    · exact absurd hsub (hmf y hy).2
  · rcases hy with rfl | hy
    · exact absurd ⟨x, (hmf x hx).1, hsub⟩ hns
    · exact hAC x (hmf x hx).1 y (hmf y hy).1 hsub

/-- The `argss.retain` filter of `propagate` keeps the target set an
antichain. -/
theorem filterStep_AC (argss tgt : List Args) (h : AC tgt) :
    AC (Data.filterStep argss tgt).2 := by
  unfold Data.filterStep
  refine foldl_pres (fun acc : List Args × List Args => AC acc.2) ?_ h
  intro g x hg
  by_cases hs : setSubsumed x g.2
  · rw [if_pos hs]
    exact hg
  · rw [if_neg hs]
    exact AC_insert_step x g.2 hg hs

theorem AC_getD (l : List (List Args)) (h : ∀ s ∈ l, AC s) (p : Nat) :
    AC (l.getD p []) := by
  by_cases hp : p < l.length
  · have hg : l.getD p [] = l[p] := by
      simp [List.getD_eq_getElem?_getD, List.getElem?_eq_getElem hp]
    rw [hg]
    exact h _ (List.getElem_mem hp)
  · rw [getD_ge _ _ _ (Nat.le_of_not_lt hp)]
    exact AC_nil

theorem DataAC_of_pn {d d' : Data} (hpos : d'.pos = d.pos)
    (hneg : d'.neg = d.neg) (h : DataAC d) : DataAC d' := by
  unfold DataAC at h ⊢
  rw [hpos, hneg]
  exact h

theorem AC_target (d : Data) (pred : Nat) (pol : Bool) (h : DataAC d) :
    AC (Data.target d pred pol) := by
  unfold Data.target
  cases pol with
  | false => exact AC_getD _ h.2 pred
  | true => exact AC_getD _ h.1 pred

theorem DataAC_setTarget (d : Data) (pred : Nat) (pol : Bool)
    (s : List Args) (h : DataAC d) (hs : AC s) :
    DataAC (d.setTarget pred pol s) := by
  cases pol with
  | false =>
    show DataAC { d with neg := d.neg.set pred s }
    refine ⟨h.1, ?_⟩
    intro t ht
    rcases List.mem_or_eq_of_mem_set ht with ht | rfl
    · exact h.2 t ht
    · exact hs
  | true =>
    show DataAC { d with pos := d.pos.set pred s }
    refine ⟨?_, h.2⟩
    intro t ht
    rcases List.mem_or_eq_of_mem_set ht with ht | rfl
    · exact h.1 t ht
    · exact hs

theorem DataAC_new (cfg : Config) (n : Nat) : DataAC (Data.new cfg n) := by
  constructor
  · intro s hs
    have hs' : s ∈ List.replicate n ([] : List Args) := hs
    rw [List.eq_of_mem_replicate hs']
    exact AC_nil
  · intro s hs
    have hs' : s ∈ List.replicate n ([] : List Args) := hs
    rw [List.eq_of_mem_replicate hs']
    exact AC_nil

namespace Data

/-- The propagation loop preserves the antichain invariant: the only
writes to `pos`/`neg` go through the antichain-preserving filter. -/
theorem propagateLoop_AC {fuel : Nat} {d : Data} {pc nc : Nat}
    {r : Nat × Nat} {d' : Data}
    (h : Data.propagateLoop fuel d pc nc = .ok (r, d'))
    (hAC : DataAC d) : DataAC d' := by
  induction fuel generalizing d pc nc with
  | zero =>
    cases hp : d.staged.pop with
    | none =>
      rw [propagateLoop_pop_none hp] at h
      simp only [Except.ok.injEq, Prod.mk.injEq] at h
      obtain ⟨-, rfl⟩ := h
      exact DataAC_of_pn (Data.shrink_pos d) (Data.shrink_neg d) hAC
    | some x =>
      obtain ⟨pred, argss, pol, st'⟩ := x
      rw [propagateLoop_pop_zero hp] at h
      cases h
  | succ fuel ih =>
    cases hp : d.staged.pop with
    | none =>
      rw [propagateLoop_pop_none hp] at h
      simp only [Except.ok.injEq, Prod.mk.injEq] at h
      obtain ⟨-, rfl⟩ := h
      exact DataAC_of_pn (Data.shrink_pos d) (Data.shrink_neg d) hAC
    | some x =>
      obtain ⟨pred, argss, pol, st'⟩ := x
      rw [propagateLoop_pop_succ hp] at h
      have hAC0 : DataAC { d with staged := st' } := DataAC_of_pn rfl rfl hAC
      have hAC1 : DataAC (setTarget { d with staged := st' } pred pol
          (filterStep argss (target { d with staged := st' } pred pol)).2) :=
        DataAC_setTarget { d with staged := st' } pred pol _ hAC0
          (filterStep_AC _ _ (AC_target { d with staged := st' } pred pol hAC0))
      by_cases hk : (filterStep argss
          (target { d with staged := st' } pred pol)).1.isEmpty = true
      · rw [if_pos hk] at h
        exact ih h hAC1
      · rw [if_neg hk] at h
        cases hf : (filterStep argss
            (target { d with staged := st' } pred pol)).1.foldlM
            (handleOne pred pol)
            (setTarget { d with staged := st' } pred pol
              (filterStep argss
                (target { d with staged := st' } pred pol)).2) with
        | error e => rw [hf] at h; cases h
        | ok d3 =>
          rw [hf] at h
          have hpn := foldlM_rel
            (fun (a b : Data) => b.pos = a.pos ∧ b.neg = a.neg)
            (fun g => ⟨rfl, rfl⟩)
            (fun a b c hab hbc => ⟨hbc.1.trans hab.1, hbc.2.trans hab.2⟩)
            (fun g x g2 hx hstep => handleOne_pn hstep) hf
          exact ih h (DataAC_of_pn hpn.1 hpn.2 hAC1)

theorem addCstrFinish_pn {fuel : Nat} {d : Data} {lhs : List (Nat × Args)}
    {rhs : Option (Nat × Args)} {c : Constraint} {b : Bool} {d' : Data}
    (h : Data.addCstrFinish fuel d lhs rhs c = .ok (b, d')) :
    d'.pos = d.pos ∧ d'.neg = d.neg := by
  unfold Data.addCstrFinish at h
  split at h
  · simp only [Except.ok.injEq, Prod.mk.injEq] at h
    obtain ⟨-, rfl⟩ := h
    exact ⟨rfl, rfl⟩
  · have hf := raw_add_cstr_frames h
    exact ⟨hf.1, hf.2.1⟩
  · split at h
    · exact absurd h addCstrUnsat_not_ok
    · split at h
      · exact absurd h addCstrUnsat_not_ok
      · cases h

theorem add_pos_pn (d : Data) (clause p : Nat) (a : Args) :
    (d.add_pos clause p a).2.pos = d.pos ∧
    (d.add_pos clause p a).2.neg = d.neg := by
  unfold Data.add_pos
  simp only []
  split
  · split
    · exact ⟨rfl, rfl⟩
    · exact ⟨rfl, rfl⟩
  · exact ⟨rfl, rfl⟩

theorem add_neg_pn (d : Data) (clause p : Nat) (a : Args) :
    (d.add_neg clause p a).2.pos = d.pos ∧
    (d.add_neg clause p a).2.neg = d.neg := by
  unfold Data.add_neg
  simp only []
  split
  · split
    · exact ⟨rfl, rfl⟩
    · exact ⟨rfl, rfl⟩
  · exact ⟨rfl, rfl⟩

theorem stageAll_pn (d other : Data) :
    (Data.stageAll d other).pos = d.pos ∧
    (Data.stageAll d other).neg = d.neg := by
  unfold Data.stageAll
  refine foldl_pres (fun y : Data => y.pos = d.pos ∧ y.neg = d.neg) ?_ ?_
  · intro y pe hy
    refine foldl_pres (fun z : Data => z.pos = d.pos ∧ z.neg = d.neg) ?_ hy
    intro z a hz
    exact hz
  · refine foldl_pres (fun y : Data => y.pos = d.pos ∧ y.neg = d.neg) ?_ ?_
    · intro y pe hy
      refine foldl_pres (fun z : Data => z.pos = d.pos ∧ z.neg = d.neg) ?_ hy
      intro z a hz
      exact hz
    · exact ⟨rfl, rfl⟩

end Data

/-- **C3.**  I1 holds: the per-predicate positive and negative sample sets
of a fresh store are antichains under subsumption, every public operation
(`propagate`, `add_raw_pos`, `add_raw_neg`, `add_cstr`, `force_pred`,
`merge_samples`, `clone_new_constraints`) preserves this, and
`clone_new_constraints` seeds a store satisfying it outright.  Moreover
the subsumption-eviction scenario holds literally: with partial samples
enabled, admitting `(⊥)` and then `(7)` positively and propagating leaves
`pos[P] = {(⊥)}`. -/
theorem C3_antichain :
    (∀ cfg n, DataAC (Data.new cfg n)) ∧
    (∀ fuel (d : Data) r d', Data.propagate fuel d = .ok (r, d') →
      DataAC d → DataAC d') ∧
    (∀ (d : Data) clause p a, DataAC d → DataAC (d.add_raw_pos clause p a)) ∧
    (∀ (d : Data) clause p a, DataAC d → DataAC (d.add_raw_neg clause p a)) ∧
    (∀ fuel (d : Data) clause lhs rhs b d',
      Data.add_cstr fuel d clause lhs rhs = .ok (b, d') →
      DataAC d → DataAC d') ∧
    (∀ fuel (d : Data) p pol d', Data.force_pred fuel d p pol = .ok d' →
      DataAC d → DataAC d') ∧
    (∀ fuel (d other : Data) r d',
      Data.merge_samples fuel d other = .ok (r, d') →
      DataAC d → DataAC d') ∧
    (∀ (d : Data) res d', Data.clone_new_constraints d = .ok (res, d') →
      (DataAC d → DataAC d') ∧ (∀ nd, res = some nd → DataAC nd)) ∧
    Data.propagate 9
        (((Data.new ⟨true, false⟩ 1).add_raw_pos 0 0 [Val.N]).add_raw_pos
          0 0 [Val.I 7]) =
      .ok ((1, 0),
        { cfg := ⟨true, false⟩
          predCount := 1
          pos := [[[Val.N]]]
          neg := [[]]
          constraints := []
          map := [[]]
          staged := ⟨[], []⟩
          cstr_info := ⟨[], []⟩
          graph := none
          factory := [[Val.I 7], [Val.N]] }) := by
  have hgraph_pn : ∀ (x : Data) (clause : Nat) (rhs : Option (Nat × Args)),
      (x.graphRecord clause rhs).pos = x.pos ∧
      (x.graphRecord clause rhs).neg = x.neg :=
    fun x clause rhs => ⟨Data.graphRecord_pos x clause rhs,
      Data.graphRecord_neg x clause rhs⟩
  refine ⟨fun cfg n => DataAC_new cfg n, ?_, ?_, ?_, ?_, ?_, ?_, ?_, by decide⟩
  · intro fuel d r d' h hAC
    exact Data.propagateLoop_AC h hAC
  · intro d clause p a hAC
    have hi : DataAC (d.intern a) := DataAC_of_pn rfl rfl hAC
    exact DataAC_of_pn (Data.add_pos_pn (d.intern a) clause p a).1
      (Data.add_pos_pn (d.intern a) clause p a).2 hi
  · intro d clause p a hAC
    have hi : DataAC (d.intern a) := DataAC_of_pn rfl rfl hAC
    exact DataAC_of_pn (Data.add_neg_pn (d.intern a) clause p a).1
      (Data.add_neg_pn (d.intern a) clause p a).2 hi
  · intro fuel d clause lhs rhs b d' h hAC
    unfold Data.add_cstr at h
    obtain ⟨r0, h0, h⟩ := bind_ok h
    have hAC0 : DataAC r0.2 := Data.propagateLoop_AC h0 hAC
    split at h
    · rename_i d2 heq
      have hfr := Data.precheckLhs_frames r0.2 lhs []
      rw [heq] at hfr
      simp only [Except.ok.injEq, Prod.mk.injEq] at h
      obtain ⟨-, rfl⟩ := h
      exact DataAC_of_pn hfr.2.2.1 hfr.2.2.2.1 hAC0
    · rename_i d2 nuLhs heq
      have hfr := Data.precheckLhs_frames r0.2 lhs []
      rw [heq] at hfr
      have hAC2 : DataAC d2 := DataAC_of_pn hfr.2.2.1 hfr.2.2.2.1 hAC0
      split at h
      · rename_i d3 heq2
        have hfr2 := Data.precheckRhs_frames d2 nuLhs rhs
        rw [heq2] at hfr2
        simp only [Except.ok.injEq, Prod.mk.injEq] at h
        obtain ⟨-, rfl⟩ := h
        exact DataAC_of_pn hfr2.2.2.1 hfr2.2.2.2.1 hAC2
      · rename_i d3 nuRhs heq2
        have hfr2 := Data.precheckRhs_frames d2 nuLhs rhs
        rw [heq2] at hfr2
        have hAC3 : DataAC d3 := DataAC_of_pn hfr2.2.2.1 hfr2.2.2.2.1 hAC2
        have hACg : DataAC (d3.graphRecord clause rhs) :=
          DataAC_of_pn (hgraph_pn d3 clause rhs).1 (hgraph_pn d3 clause rhs).2
            hAC3
        have hpn := Data.addCstrFinish_pn h
        exact DataAC_of_pn hpn.1 hpn.2 hACg
  · intro fuel d p pol d' h hAC
    unfold Data.force_pred at h
    obtain ⟨fr, h1, h⟩ := bind_ok h
    obtain ⟨d2, h2, h⟩ := bind_ok h
    obtain ⟨rp, h3, h⟩ := bind_ok h
    simp only [Except.ok.injEq] at h
    have hfold := foldlM_rel
      (fun (a b : Data × List Nat) => b.1.pos = a.1.pos ∧ b.1.neg = a.1.neg)
      (fun g => ⟨rfl, rfl⟩)
      (fun a b c hab hbc => ⟨hbc.1.trans hab.1, hbc.2.trans hab.2⟩)
      ?_ h1
    · have hACfr : DataAC fr.1 := DataAC_of_pn hfold.1 hfold.2 hAC
      have hmp := Data.moddedPass_pns h2
      have hACd2 : DataAC d2 := DataAC_of_pn hmp.1 hmp.2.1 hACfr
      rw [← h]
      exact Data.propagateLoop_AC h3 hACd2
    · intro g x g' hx hstep
      obtain ⟨rr, hr1, hr2⟩ := bind_ok hstep
      split at hr2
      · simp only [Except.ok.injEq] at hr2
        rw [← hr2]
        exact ⟨rfl, rfl⟩
      · split at hr2
        · simp only [Except.ok.injEq] at hr2
          rw [← hr2]
          exact Data.stageTrivial_pn _ _ _ _ _
        · simp only [Except.ok.injEq] at hr2
          rw [← hr2]
          exact ⟨rfl, rfl⟩
        · cases hr2
  · intro fuel d other r d' h hAC
    have hsa := Data.stageAll_pn d other
    unfold Data.merge_samples at h
    split at h
    · rename_i g og hg hog
      refine Data.propagateLoop_AC h ?_
      exact DataAC_of_pn hsa.1 hsa.2 hAC
    · cases h
    · exact Data.propagateLoop_AC h (DataAC_of_pn hsa.1 hsa.2 hAC)
  · intro d res d' h
    unfold Data.clone_new_constraints at h
    obtain ⟨resv, hfold, h⟩ := bind_ok h
    simp only [Except.ok.injEq, Prod.mk.injEq] at h
    obtain ⟨rfl, rfl⟩ := h
    constructor
    · intro hAC
      exact DataAC_of_pn rfl rfl hAC
    · intro nd hnd
      have key := foldlM_rel
        (fun (a b : Option Data) =>
          (∀ x, a = some x → DataAC x) → (∀ x, b = some x → DataAC x))
        (fun _ hp => hp)
        (fun _ _ _ hab hbc hp => hbc (hab hp))
        ?_ hfold
      · exact key (fun x hx => by cases hx) nd hnd
      · intro g x g' hx hstep hp
        intro y hy
        split at hstep
        · simp only [Except.ok.injEq] at hstep
          rw [← hstep] at hy
          exact hp y hy
        · obtain ⟨r1, hraw, hstep⟩ := bind_ok hstep
          simp only [Except.ok.injEq] at hstep
          rw [← hstep] at hy
          cases hy
          have hf := Data.raw_add_cstr_frames hraw
          refine DataAC_of_pn hf.1 hf.2.1 ?_
          cases hg : g with
          | none => exact DataAC_new d.cfg d.predCount
          | some g0 =>
            simp only [Option.getD_some]
            exact hp g0 hg

/-- **C3, witness.**  A fresh store satisfies I1, and so does the store
after a raw positive admission. -/
theorem C3_witness :
    DataAC (Data.new ⟨true, false⟩ 1) ∧
    DataAC ((Data.new ⟨true, false⟩ 1).add_raw_pos 0 0 [Val.N]) :=
  ⟨by decide,
    C3_antichain.2.2.1 (Data.new ⟨true, false⟩ 1) 0 0 [Val.N] (by decide)⟩

/-- **C1, witness.** -/
theorem C1_witness :
    c1data.constraints.getD 1 cdefault =
        c1data.constraints.getD 1 cdefault ∧
    (true = false ↔ ∃ j ∈ c1data.examinedIds 1,
      Constraint.compare (c1data.constraints.getD 1 cdefault)
        (c1data.constraints.getD j cdefault) = some Ordering.lt) ∧
    (∀ j ∈ c1data.examinedIds 1,
      (Constraint.compare (c1data.constraints.getD 1 cdefault)
          (c1data.constraints.getD j cdefault) = some Ordering.eq ∨
        Constraint.compare (c1data.constraints.getD 1 cdefault)
          (c1data.constraints.getD j cdefault) = some Ordering.gt) →
      (c1data.constraints.getD j cdefault).is_tautology = true) ∧
    (∀ j ∈ c1data.examinedIds 1,
      Constraint.compare (c1data.constraints.getD 1 cdefault)
          (c1data.constraints.getD j cdefault) = none →
      c1data.constraints.getD j cdefault =
        c1data.constraints.getD j cdefault) ∧
    (∀ k, k ∉ c1data.examinedIds 1 →
      c1data.constraints.getD k cdefault =
        c1data.constraints.getD k cdefault) :=
  C1_cstr_useful c1data 1 [1] true c1data (by decide) (by decide)

end HoiceData
